import Mathlib

/-!
# carrito.c : obstacle-avoiding cart controller

A shallow embedding of `src/carrito.c` (Raspberry Pi Pico firmware) and the
properties of its control logic.

Conventions of the embedding

* `uint32_t` values are natural numbers reduced modulo `2 ^ 32` at every
  operation that can wrap (`sub32`, the increment of `pulse_count`).
* `float` and `double` values are the rational numbers they denote.  Every
  arithmetic operation is followed by the IEEE-754 rounding of its format
  (`f32`: 24-bit significand, `f64`: 53-bit significand, round to nearest, ties
  to even).  Exponent range is not modelled: every value the program computes is
  far inside the normal range of both formats.
* Hardware inputs (the microsecond timer, the echo line, encoder interrupts) are
  supplied by an explicit script that the program consumes in program order.
  Encoder interrupts preempt the main thread; the script lists the ones serviced in
  each phase of a loop iteration, and those serviced before each evaluation of the
  wait loop of a turn.
* `measure_distance` is modelled on the trace of its echo pin.  The loop model takes
  the three values returned in an iteration as inputs (`Cycle`), so that its
  properties hold for every triple of readings; `Cycle.measured` builds them from
  three echo traces.
* Motor commands and millisecond sleeps are recorded in a chronological log
  carried in the state, next to the four direction pins.
-/

namespace Carrito

/-! ## Binary floating point rounding -/

/-- Nearest integer to the non-negative fraction `a / b`, ties going to the even neighbour. -/
def roundHalfEven (a b : Nat) : Nat :=
  let q := a / b
  let r := a % b
  if 2 * r < b then q else if b < 2 * r then q + 1 else if q % 2 = 0 then q else q + 1

/-- Floor of the base-2 logarithm, by structural recursion on a fuel argument. -/
def log2Aux : Nat → Nat → Nat
  | 0, _ => 0
  | fuel + 1, n => if 2 ≤ n then log2Aux fuel (n / 2) + 1 else 0

/-- Floor of the base-2 logarithm of `n` (and `0` for `n = 0`). -/
def ilog2 (n : Nat) : Nat := log2Aux n n

/-- Binary exponent of the positive fraction `n / d`: the `e` with `2 ^ e ≤ n / d < 2 ^ (e + 1)`. -/
def binExp (n d : Nat) : Int :=
  let k : Int := (ilog2 n : Int) - (ilog2 d : Int)
  if 0 ≤ k then (if d * 2 ^ k.toNat ≤ n then k else k - 1)
  else (if d ≤ n * 2 ^ (-k).toNat then k else k - 1)

/-- Round a rational to the nearest binary floating point number with a `p`-bit
significand (ties to even, unbounded exponent). -/
def roundBin (p : Nat) (x : ℚ) : ℚ :=
  if x = 0 then 0 else
  let n := x.num.natAbs
  let d := x.den
  let sh : Int := binExp n d - ((p : Int) - 1)
  let v : ℚ :=
    if 0 ≤ sh then ((roundHalfEven n (d * 2 ^ sh.toNat) * 2 ^ sh.toNat : Nat) : ℚ)
    else ((roundHalfEven (n * 2 ^ (-sh).toNat) d : Nat) : ℚ) / ((2 ^ (-sh).toNat : Nat) : ℚ)
  if x < 0 then -v else v

/-- Rounding to IEEE-754 single precision (C `float`). -/
def f32 (x : ℚ) : ℚ := roundBin 24 x

/-- Rounding to IEEE-754 double precision (C `double`). -/
def f64 (x : ℚ) : ℚ := roundBin 53 x

/-- The C conversion `(uint32_t) x` of a non-negative floating point value: truncation. -/
def toUint32 (x : ℚ) : Nat := Int.toNat ⌊x⌋ % 2 ^ 32

/-! ## Pins and global constants (lines 19-42) -/

def IN1 : Nat := 2
def IN2 : Nat := 3
def IN3 : Nat := 4
def IN4 : Nat := 5
def EN : Nat := 6
def ENCODER_PIN : Nat := 16
def TRIG_FRONT : Nat := 15
def ECHO_FRONT : Nat := 14
def TRIG_LEFT : Nat := 18
def ECHO_LEFT : Nat := 19
def TRIG_RIGHT : Nat := 20
def ECHO_RIGHT : Nat := 21

/-- `const float wheel_circumference = 21.28;` (a double literal stored in a float). -/
def wheel_circumference : ℚ := f32 (f64 (2128 / 100))
/-- `const uint32_t pulses_per_revolution = 40;` -/
def pulses_per_revolution : Nat := 40
/-- `const float target_distance = 150.0;` -/
def target_distance : ℚ := f32 (f64 150)
/-- `const float width = 13.5;` -/
def width : ℚ := f32 (f64 (135 / 10))
/-- `const float correction_factor = 0.40;` -/
def correction_factor : ℚ := f32 (f64 (40 / 100))
/-- `const uint32_t timeout_us = 40000;` -/
def timeout_us : Nat := 40000

/-- The value of `pulses_needed_turn` computed on line 164 (and again on line 185):
`(uint32_t)((width * 3.14159) * correction_factor / wheel_circumference * pulses_per_revolution)`,
every operation in double precision. -/
def pulses_needed_turn : Nat :=
  toUint32 (f64 (f64 (f64 (f64 (width * f64 (314159 / 100000)) * correction_factor)
    / wheel_circumference) * (pulses_per_revolution : ℚ)))

/-- The value of `pulses_needed_forward` computed on line 229:
`(uint32_t)((target_distance / wheel_circumference) * pulses_per_revolution)`,
every operation in single precision. -/
def pulses_needed_forward : Nat :=
  toUint32 (f32 (f32 (target_distance / wheel_circumference) * f32 (pulses_per_revolution : ℚ)))

/-- The turn calibration formula as the specification words it, for a rational
stand-in `pi` of the circle constant and exact decimal constants:
`round((width * pi * correction_factor) / wheel_circumference * pulses_per_revolution)`. -/
def spec_turn_pulses (pi : ℚ) : Int :=
  round ((135 / 10 * pi * (40 / 100)) / (2128 / 100) * 40 : ℚ)

/-- The forward target formula as the specification words it, with exact decimal
constants: `floor(target_distance / wheel_circumference * pulses_per_revolution)`. -/
def spec_target_pulses : Int :=
  ⌊(150 / (2128 / 100) * 40 : ℚ)⌋

/-! ## Machine state -/

/-- The commands whose order the properties speak about. -/
inductive Action
  | stop_motors
  | set_motor_forward
  | turn_90_degrees_left
  | turn_90_degrees_right
  | sleep_ms (ms : Nat)
  deriving DecidableEq, Repr

/-- Motor commands are the actions other than sleeping. -/
def Action.isMotor : Action → Bool
  | .sleep_ms _ => false
  | _ => true

/-- Motion commands are the motor commands that set a wheel turning. -/
def Action.isMotion : Action → Bool
  | .set_motor_forward => true
  | .turn_90_degrees_left => true
  | .turn_90_degrees_right => true
  | _ => false

/-- Output levels of the four direction pins, the two globals written by the
encoder interrupt, and the chronological log of commands. -/
structure State where
  in1 : Bool
  in2 : Bool
  in3 : Bool
  in4 : Bool
  pulse_count : Nat
  last_interrupt_time : Nat
  log : List Action
  deriving DecidableEq, Repr

/-- `gpio_put(pin, value)` on one of the direction pins; other pins are not part of the state. -/
def gpio_put (pin : Nat) (value : Bool) (s : State) : State :=
  if pin = IN1 then { s with in1 := value }
  else if pin = IN2 then { s with in2 := value }
  else if pin = IN3 then { s with in3 := value }
  else if pin = IN4 then { s with in4 := value }
  else s

/-- Append a command to the log. -/
def record (a : Action) (s : State) : State :=
  { s with log := s.log ++ [a] }

/-- `sleep_ms(ms)`: only its occurrence is recorded. -/
def sleep_ms (ms : Nat) (s : State) : State := record (.sleep_ms ms) s

/-- `time_us_32()`: the low 32 bits of the microsecond timer, whose full value is `t`. -/
def time_us_32 (t : Nat) : Nat := t % 2 ^ 32

/-- Subtraction of two `uint32_t` values. -/
def sub32 (a b : Nat) : Nat := (a % 2 ^ 32 + 2 ^ 32 - b % 2 ^ 32) % 2 ^ 32

/-! ## Encoder interrupt (lines 52-59) -/

/-- `gpio_callback(gpio, events)`, run when the timer reads `now`. -/
def gpio_callback (gpio _events : Nat) (now : Nat) (s : State) : State :=
  let current_time := time_us_32 now
  if gpio = ENCODER_PIN ∧ sub32 current_time s.last_interrupt_time > 1000 then
    { s with pulse_count := (s.pulse_count + 1) % 2 ^ 32, last_interrupt_time := current_time }
  else s

/-- One interrupt: the arguments the callback is called with and the timer value it reads. -/
structure Irq where
  gpio : Nat
  events : Nat
  time : Nat
  deriving DecidableEq, Repr

/-- Service a sequence of interrupts in order. -/
def deliver (s : State) (irqs : List Irq) : State :=
  irqs.foldl (fun st i => gpio_callback i.gpio i.events i.time st) s

/-! ## Motor control (lines 96-112) -/

/-- `set_motor_forward()`. -/
def set_motor_forward (s : State) : State :=
  gpio_put IN4 true (gpio_put IN3 false (gpio_put IN2 true (gpio_put IN1 false
    (record .set_motor_forward s))))

/-- `stop_motors()`. -/
def stop_motors (s : State) : State :=
  gpio_put IN4 false (gpio_put IN3 false (gpio_put IN2 false (gpio_put IN1 false
    (record .stop_motors s))))

/-! ## Ultrasonic range measurement (lines 132-160) -/

/-- One iteration of a polling loop: the level `gpio_get(echo_pin)` returns and the
timer value at the `time_us_32()` call that follows it (the timeout check when the
loop continues, the timestamp taken after the loop when it ends). -/
structure Poll where
  level : Bool
  time : Nat
  deriving DecidableEq, Repr

/-- What the hardware shows during one call of `measure_distance`: the timer value
at the first `time_us_32()` and the polls that follow. -/
structure EchoTrace where
  start : Nat
  polls : List Poll
  deriving DecidableEq, Repr

/-- Outcome of one polling loop. -/
inductive Wait
  | exhausted
  | timed_out
  | edge (stamp : Nat) (rest : List Poll)
  deriving DecidableEq, Repr

/-- The loop `while (gpio_get(echo_pin) == lvl) { if (time_us_32() - t0 > timeout_us) return -1.0f; }`
followed by the `time_us_32()` read after it. -/
def poll_while (lvl : Bool) (t0 : Nat) : List Poll → Wait
  | [] => .exhausted
  | p :: rest =>
    if p.level = lvl then
      if sub32 (time_us_32 p.time) t0 > timeout_us then .timed_out
      else poll_while lvl t0 rest
    else .edge (time_us_32 p.time) rest

/-- The value `(pulse_duration * 0.0343) / 2.0`, computed in double precision and
returned as a `float`. -/
def distance_of (pulse_duration : Nat) : ℚ :=
  f32 (f64 (f64 (f64 (pulse_duration : ℚ) * f64 (343 / 10000)) / 2))

/-- `measure_distance(trig_pin, echo_pin)` against the trace of its echo pin.  The
trigger pulse has no effect on the modelled state.  The result is `none` when the
trace ends while a loop is still polling; the Timeout sentinel is the value `-1`. -/
def measure_distance (tr : EchoTrace) : Option ℚ :=
  let start_time := time_us_32 tr.start
  match poll_while false start_time tr.polls with
  | .exhausted => none
  | .timed_out => some (-1)
  | .edge pulse_start rest =>
    match poll_while true pulse_start rest with
    | .exhausted => none
    | .timed_out => some (-1)
    | .edge pulse_end _ =>
      let pulse_duration := sub32 pulse_end pulse_start
      some (distance_of pulse_duration)

/-! ## Pivot turns (lines 163-202) -/

/-- Outcome of a turn: completed, or still waiting for pulses when the script ends. -/
inductive Turn
  | done (s : State)
  | stalled (s : State)
  deriving DecidableEq, Repr

/-- The busy wait `while (pulse_count < pulses_needed_turn) tight_loop_contents();`.
Each element of the script is the batch of interrupts serviced before one evaluation
of the loop condition; `stalled` when the script ends with the condition still true. -/
def wait_turn (needed : Nat) (s : State) : List (List Irq) → Turn
  | [] => .stalled s
  | batch :: rest =>
    let s1 := deliver s batch
    if s1.pulse_count < needed then wait_turn needed s1 rest else .done s1

/-- State in which `turn_90_degrees_left` enters its wait loop (lines 167-172). -/
def turn_90_degrees_left_drive (s : State) : State :=
  { gpio_put IN4 false (gpio_put IN3 true (gpio_put IN2 true (gpio_put IN1 false
      (record .turn_90_degrees_left s)))) with pulse_count := 0 }

/-- `turn_90_degrees_left()`. -/
def turn_90_degrees_left (s : State) (irqs : List (List Irq)) : Turn :=
  match wait_turn pulses_needed_turn (turn_90_degrees_left_drive s) irqs with
  | .done w => .done (stop_motors w)
  | .stalled w => .stalled w

/-- State in which `turn_90_degrees_right` enters its wait loop (lines 188-193). -/
def turn_90_degrees_right_drive (s : State) : State :=
  { gpio_put IN4 true (gpio_put IN3 false (gpio_put IN2 false (gpio_put IN1 true
      (record .turn_90_degrees_right s)))) with pulse_count := 0 }

/-- `turn_90_degrees_right()`. -/
def turn_90_degrees_right (s : State) (irqs : List (List Irq)) : Turn :=
  match wait_turn pulses_needed_turn (turn_90_degrees_right_drive s) irqs with
  | .done w => .done (stop_motors w)
  | .stalled w => .stalled w

/-! ## Main loop (lines 212-279) -/

/-- What the environment does during one iteration of the `while (1)` loop: the three
values returned by `measure_distance`, and the encoder interrupts serviced in each phase. -/
structure Cycle where
  front_distance : ℚ
  left_distance : ℚ
  right_distance : ℚ
  /-- interrupts during the three measurements and the two 50 ms delays -/
  irq_sense : List Irq
  /-- interrupts during `stop_motors(); sleep_ms(1000);` -/
  irq_pause : List Irq
  /-- interrupts during the wait loop of a turn, batched per evaluation of its condition -/
  irq_turn : List (List Irq)
  /-- interrupts between the obstacle block and the target check -/
  irq_tail : List Irq
  deriving DecidableEq, Repr

/-- Outcome of one loop iteration. -/
inductive Step
  | exit (s : State)
  | next (s : State)
  | hang (s : State)
  deriving DecidableEq, Repr

/-- The block guarded by the front obstacle test (lines 251-264). -/
def avoid_obstacle (s : State) (c : Cycle) : Step :=
  let s1 := deliver (sleep_ms 1000 (stop_motors s)) c.irq_pause
  if c.left_distance > 0 ∧ c.left_distance ≤ 30 ∧ c.right_distance > 0 ∧ c.right_distance ≤ 30 then
    .exit s1
  else
    let turned :=
      if c.left_distance > 0 ∧ c.left_distance ≤ 30 then turn_90_degrees_right s1 c.irq_turn
      else if c.right_distance > 0 ∧ c.right_distance ≤ 30 then turn_90_degrees_left s1 c.irq_turn
      else turn_90_degrees_left s1 c.irq_turn
    match turned with
    | .stalled s2 => .hang s2
    | .done s2 => .next (set_motor_forward s2)

/-- The target check (lines 272-275). -/
def target_check (needed : Nat) (s : State) (c : Cycle) : Step :=
  let s1 := deliver s c.irq_tail
  if s1.pulse_count ≥ needed then .exit (stop_motors s1) else .next s1

/-- One iteration of the `while (1)` loop (lines 239-275). -/
def loop_body (needed : Nat) (s : State) (c : Cycle) : Step :=
  let s1 := deliver (sleep_ms 50 (sleep_ms 50 s)) c.irq_sense
  if c.front_distance > 0 ∧ c.front_distance ≤ 30 then
    match avoid_obstacle s1 c with
    | .next s2 => target_check needed s2 c
    | other => other
  else target_check needed s1 c

/-- How a run of `main` ends on a finite script. -/
inductive Run
  | returned (code : Int) (s : State)
  | running (s : State)
  | hung (s : State)
  deriving DecidableEq, Repr

/-- The `while (1)` loop followed by `return 0;`. -/
def main_loop (needed : Nat) : State → List Cycle → Run
  | s, [] => .running s
  | s, c :: rest =>
    match loop_body needed s c with
    | .exit s1 => .returned 0 s1
    | .next s1 => main_loop needed s1 rest
    | .hang s1 => .hung s1

/-- The state a run has reached when its script ends. -/
def Run.state : Run → State
  | .returned _ s => s
  | .running s => s
  | .hung s => s

/-- State after `gpio_init` of the output pins, with the globals at their initialisers. -/
def boot_state : State :=
  { in1 := false, in2 := false, in3 := false, in4 := false,
    pulse_count := 0, last_interrupt_time := 0, log := [] }

/-- Input of a whole run: interrupts serviced between `init_gpio()` and
`pulse_count = 0`, then the loop iterations. -/
structure Script where
  boot : List Irq
  cycles : List Cycle
  deriving DecidableEq, Repr

/-- State in which `main` enters its loop (lines 213-231).  `stdio_init_all`, the
pin setup of `init_gpio` and the PWM configuration do not touch the modelled state. -/
def loop_entry (boot : List Irq) : State :=
  set_motor_forward { deliver (sleep_ms 500 boot_state) boot with pulse_count := 0 }

/-- `main()`. -/
def main (sc : Script) : Run :=
  main_loop pulses_needed_forward (loop_entry sc.boot) sc.cycles

/-! ## Vocabulary of the properties -/

/-- A side reading reports an obstacle: it is positive and at most 30 cm. -/
abbrev blocked (x : ℚ) : Prop := 0 < x ∧ x ≤ 30

/-- State at the front obstacle test of an iteration started in `s`. -/
def sensed (s : State) (c : Cycle) : State :=
  deliver (sleep_ms 50 (sleep_ms 50 s)) c.irq_sense

/-- State after `stop_motors(); sleep_ms(1000);` entered in `s`. -/
def paused (s : State) (c : Cycle) : State :=
  deliver (sleep_ms 1000 (stop_motors s)) c.irq_pause

/-- The state a turn ends in. -/
def Turn.state : Turn → State
  | .done s => s
  | .stalled s => s

/-- The state an iteration ends in. -/
def Step.state : Step → State
  | .exit s => s
  | .next s => s
  | .hang s => s

/-- State after a series of iterations that neither meet a front obstacle nor reach
the target: each adds the two 50 ms delays and services its interrupts. -/
def cruise (s : State) (cs : List Cycle) : State :=
  cs.foldl (fun st c => deliver (sensed st c) c.irq_tail) s

/-- A front reading that is the Timeout sentinel or above the 30 cm threshold. -/
abbrev clear_front (c : Cycle) : Prop := c.front_distance = -1 ∨ 30 < c.front_distance

/-- The wait loop started in `s` finds its condition false at one of its evaluations. -/
def reaches (needed : Nat) (s : State) (batches : List (List Irq)) : Prop :=
  ∃ k, k < batches.length ∧ needed ≤ (deliver s (batches.take (k + 1)).flatten).pulse_count

/-- `n` rising edges of the encoder pin, 1001 us apart, the first at time `t0`. -/
def encoder_pulses (n t0 : Nat) : List Irq :=
  (List.range n).map fun i => { gpio := ENCODER_PIN, events := 8, time := t0 + 1001 * i }

/-- The debounce rule as the specification words it, on unbounded time: an edge more than
1000 us after the previous accepted edge is counted and becomes the accepted edge,
any other edge is discarded.  Returns the last accepted edge time and the count. -/
def spec_debounce (last count : Nat) : List Nat → Nat × Nat
  | [] => (last, count)
  | t :: ts => if 1000 < t - last then spec_debounce t (count + 1) ts
               else spec_debounce last count ts

/-- Encoder interrupts at the given timer values. -/
def encoder_edges (ts : List Nat) : List Irq :=
  ts.map fun t => { gpio := ENCODER_PIN, events := 8, time := t }

/-- The value `y` lies between `X * lo` and `X * hi`. -/
def enclosed (X lo hi y : ℚ) : Prop := X * lo ≤ y ∧ y ≤ X * hi

/-- Levels of the left motor's two direction pins. -/
def left_motor (s : State) : Bool × Bool := (s.in1, s.in2)

/-- Levels of the right motor's two direction pins. -/
def right_motor (s : State) : Bool × Bool := (s.in3, s.in4)

/-! ## Scenarios -/

/-- The iteration in which the three calls of `measure_distance` see the given echo
traces; `none` when one of the traces ends before its call returns. -/
def Cycle.measured (front left right : EchoTrace) (irq_sense irq_pause : List Irq)
    (irq_turn : List (List Irq)) (irq_tail : List Irq) : Option Cycle :=
  match measure_distance front, measure_distance left, measure_distance right with
  | some f, some l, some r =>
    some { front_distance := f, left_distance := l, right_distance := r,
           irq_sense := irq_sense, irq_pause := irq_pause, irq_turn := irq_turn,
           irq_tail := irq_tail }
  | _, _, _ => none

/-- The scenario front = 25, left = 10, right = 50, with 31 encoder pulses arriving
during the turn. -/
def scenario_left_blocked : Cycle :=
  { front_distance := 25, left_distance := 10, right_distance := 50,
    irq_sense := [], irq_pause := [], irq_turn := [encoder_pulses 31 3000000], irq_tail := [] }

/-- An iteration with clear readings during which 281 pulses are counted. -/
def scenario_target_reached : Cycle :=
  { front_distance := -1, left_distance := -1, right_distance := -1,
    irq_sense := encoder_pulses 281 600000, irq_pause := [], irq_turn := [], irq_tail := [] }

/-- An iteration without obstacle during which 270 pulses are counted. -/
def scenario_cruise : Cycle :=
  { front_distance := -1, left_distance := -1, right_distance := -1,
    irq_sense := encoder_pulses 270 600000, irq_pause := [], irq_turn := [], irq_tail := [] }

/-- An iteration in which 11 pulses arrive while the sensors are read and the readings
are front = 25, left = 10, right = 50, with 31 pulses arriving during the turn. -/
def scenario_late_obstacle : Cycle :=
  { front_distance := 25, left_distance := 10, right_distance := 50,
    irq_sense := encoder_pulses 11 900000, irq_pause := [],
    irq_turn := [encoder_pulses 31 3000000], irq_tail := [] }

/-- An iteration in which the front sensor reports 45 cm, the left one times out, the
right one reports 10 cm, and 11 pulses arrive. -/
def scenario_clear_finish : Cycle :=
  { front_distance := 45, left_distance := -1, right_distance := 10,
    irq_sense := encoder_pulses 11 900000, irq_pause := [], irq_turn := [], irq_tail := [] }

/-- The scenario front = 25, left = 10, right = 10. -/
def scenario_boxed_in : Cycle :=
  { front_distance := 25, left_distance := 10, right_distance := 10,
    irq_sense := [], irq_pause := [], irq_turn := [], irq_tail := [] }

/-! ## Calibration constants -/

theorem pulses_needed_turn_eq : pulses_needed_turn = 31 := by decide!

theorem pulses_needed_forward_eq : pulses_needed_forward = 281 := by decide!

/-- C3 (as the code computes it): the pulse requirement of both turn functions is the
truncation, not the rounding, of `width * 3.14159 * correction_factor /
wheel_circumference * pulses_per_revolution`; for the program's constants it is 31,
which is also the floor of the exact decimal formula. -/
theorem turn_pulses_truncated :
    pulses_needed_turn = 31 ∧
    ⌊((135 / 10 * (314159 / 100000) * (40 / 100)) / (2128 / 100) * 40 : ℚ)⌋ = 31 := by
  refine ⟨by decide!, ?_⟩
  rw [Int.floor_eq_iff]
  norm_num

/-- C3 as stated fails: the rounded formula gives 32, the program computes a value
different from 32 and from the rounded formula. -/
theorem turn_pulses_not_rounded :
    spec_turn_pulses (314159 / 100000) = 32 ∧ pulses_needed_turn ≠ 32 ∧
    (pulses_needed_turn : Int) ≠ spec_turn_pulses (314159 / 100000) := by
  decide!

/-- C8: the target pulse count computed before the loop is the floor of
`target_distance / wheel_circumference * pulses_per_revolution`, which is 281, and it is
the value `main` passes to its loop. -/
theorem forward_target_pulses :
    (pulses_needed_forward : Int) = spec_target_pulses ∧ pulses_needed_forward = 281 ∧
    ∀ sc : Script, main sc = main_loop 281 (loop_entry sc.boot) sc.cycles := by
  refine ⟨by decide!, by decide!, fun sc => ?_⟩
  rw [main, pulses_needed_forward_eq]

/-! ## Elementary facts about the state operations -/

theorem stop_motors_eq (s : State) :
    stop_motors s = { s with in1 := false, in2 := false, in3 := false, in4 := false,
                             log := s.log ++ [.stop_motors] } := by
  simp [stop_motors, gpio_put, record, IN1, IN2, IN3, IN4]

theorem set_motor_forward_eq (s : State) :
    set_motor_forward s = { s with in1 := false, in2 := true, in3 := false, in4 := true,
                                   log := s.log ++ [.set_motor_forward] } := by
  simp [set_motor_forward, gpio_put, record, IN1, IN2, IN3, IN4]

theorem sleep_ms_eq (ms : Nat) (s : State) :
    sleep_ms ms s = { s with log := s.log ++ [.sleep_ms ms] } := rfl

theorem turn_90_degrees_left_drive_eq (s : State) :
    turn_90_degrees_left_drive s =
      { s with in1 := false, in2 := true, in3 := true, in4 := false, pulse_count := 0,
               log := s.log ++ [.turn_90_degrees_left] } := by
  simp [turn_90_degrees_left_drive, gpio_put, record, IN1, IN2, IN3, IN4]

theorem turn_90_degrees_right_drive_eq (s : State) :
    turn_90_degrees_right_drive s =
      { s with in1 := true, in2 := false, in3 := false, in4 := true, pulse_count := 0,
               log := s.log ++ [.turn_90_degrees_right] } := by
  simp [turn_90_degrees_right_drive, gpio_put, record, IN1, IN2, IN3, IN4]

theorem gpio_callback_frame (g e t : Nat) (s : State) :
    (gpio_callback g e t s).log = s.log ∧ (gpio_callback g e t s).in1 = s.in1 ∧
    (gpio_callback g e t s).in2 = s.in2 ∧ (gpio_callback g e t s).in3 = s.in3 ∧
    (gpio_callback g e t s).in4 = s.in4 := by
  simp only [gpio_callback]
  split <;> simp

theorem deliver_nil (s : State) : deliver s [] = s := rfl

theorem deliver_cons (s : State) (i : Irq) (l : List Irq) :
    deliver s (i :: l) = deliver (gpio_callback i.gpio i.events i.time s) l := rfl

theorem deliver_append (s : State) (a b : List Irq) :
    deliver s (a ++ b) = deliver (deliver s a) b := by
  simp [deliver, List.foldl_append]

theorem deliver_frame (s : State) (l : List Irq) :
    (deliver s l).log = s.log ∧ (deliver s l).in1 = s.in1 ∧ (deliver s l).in2 = s.in2 ∧
    (deliver s l).in3 = s.in3 ∧ (deliver s l).in4 = s.in4 := by
  induction l generalizing s with
  | nil => simp [deliver_nil]
  | cons i l ih =>
    rw [deliver_cons]
    have h := gpio_callback_frame i.gpio i.events i.time s
    have h2 := ih (gpio_callback i.gpio i.events i.time s)
    simp only [h.1, h.2.1, h.2.2.1, h.2.2.2.1, h.2.2.2.2] at h2
    exact h2

@[simp] theorem deliver_log (s : State) (l : List Irq) : (deliver s l).log = s.log :=
  (deliver_frame s l).1

@[simp] theorem deliver_in1 (s : State) (l : List Irq) : (deliver s l).in1 = s.in1 :=
  (deliver_frame s l).2.1

@[simp] theorem deliver_in2 (s : State) (l : List Irq) : (deliver s l).in2 = s.in2 :=
  (deliver_frame s l).2.2.1

@[simp] theorem deliver_in3 (s : State) (l : List Irq) : (deliver s l).in3 = s.in3 :=
  (deliver_frame s l).2.2.2.1

@[simp] theorem deliver_in4 (s : State) (l : List Irq) : (deliver s l).in4 = s.in4 :=
  (deliver_frame s l).2.2.2.2

/-- The interrupt handler reads and writes only the two encoder globals: changing
the other fields of the state commutes with servicing interrupts. -/
theorem deliver_with_frame (s : State) (l : List Irq) (a b c d : Bool) (lg : List Action) :
    deliver { s with in1 := a, in2 := b, in3 := c, in4 := d, log := lg } l =
      { deliver s l with in1 := a, in2 := b, in3 := c, in4 := d, log := lg } := by
  induction l generalizing s with
  | nil => simp [deliver_nil]
  | cons i l ih =>
    rw [deliver_cons, deliver_cons, ← ih]
    congr 1
    simp only [gpio_callback]
    split <;> simp_all

/-- Servicing interrupts from two states that differ only in the pulse count leads to
two states that differ only in the pulse count. -/
theorem deliver_with_count (s : State) (p : Nat) (l : List Irq) :
    ∃ q, deliver { s with pulse_count := p } l = { deliver s l with pulse_count := q } := by
  induction l generalizing s p with
  | nil => exact ⟨p, rfl⟩
  | cons i l ih =>
    rw [deliver_cons, deliver_cons]
    simp only [gpio_callback]
    by_cases h : i.gpio = ENCODER_PIN ∧ sub32 (time_us_32 i.time) s.last_interrupt_time > 1000
    · simp only [h, and_self, if_true]
      obtain ⟨q, hq⟩ := ih { s with pulse_count := (s.pulse_count + 1) % 2 ^ 32,
                                    last_interrupt_time := time_us_32 i.time } ((p + 1) % 2 ^ 32)
      exact ⟨q, hq⟩
    · simp only [h, if_false]
      exact ih s p

theorem sub32_of_le (a b : Nat) (hab : a ≤ b) (hgap : b - a < 2 ^ 32) :
    sub32 (time_us_32 b) (time_us_32 a) = b - a := by
  unfold sub32 time_us_32
  omega

/-! ## C9 : pin levels during a pivot -/

/-- C9 (what the code does): with `forward` read off `set_motor_forward`
(`IN1 = 0, IN2 = 1` and `IN3 = 0, IN4 = 1`), `turn_90_degrees_left` drives the left motor
with its forward levels and the right motor with them swapped, and
`turn_90_degrees_right` drives the left motor with swapped levels and the right motor
with its forward levels: the opposite wheel assignment to the one the source comments
announce. -/
theorem pivot_pin_levels (s : State) :
    left_motor (set_motor_forward s) = (false, true) ∧
    right_motor (set_motor_forward s) = (false, true) ∧
    left_motor (turn_90_degrees_left_drive s) = left_motor (set_motor_forward s) ∧
    right_motor (turn_90_degrees_left_drive s) = (right_motor (set_motor_forward s)).swap ∧
    left_motor (turn_90_degrees_right_drive s) = (left_motor (set_motor_forward s)).swap ∧
    right_motor (turn_90_degrees_right_drive s) = right_motor (set_motor_forward s) := by
  simp [left_motor, right_motor, set_motor_forward_eq, turn_90_degrees_left_drive_eq,
    turn_90_degrees_right_drive_eq]

/-! ## C5 : encoder debounce -/

/-- C5: let the previous accepted edge have arrived at timer value `prev` and a new
encoder edge arrive at `now`, less than `2 ^ 32` us later.  If the gap is strictly more
than 1000 us the callback increments `pulse_count` by exactly one (modulo `2 ^ 32`, so
by one whenever the counter is below its maximum) and records the new edge time; if
the gap is at most 1000 us the state is unchanged. -/
theorem encoder_debounce (s : State) (events prev now : Nat)
    (hlast : s.last_interrupt_time = time_us_32 prev) (hord : prev ≤ now)
    (hgap : now - prev < 2 ^ 32) :
    (1000 < now - prev →
      gpio_callback ENCODER_PIN events now s =
        { s with pulse_count := (s.pulse_count + 1) % 2 ^ 32,
                 last_interrupt_time := time_us_32 now } ∧
      (s.pulse_count + 1 < 2 ^ 32 →
        (gpio_callback ENCODER_PIN events now s).pulse_count = s.pulse_count + 1)) ∧
    (now - prev ≤ 1000 → gpio_callback ENCODER_PIN events now s = s) := by
  have hsub : sub32 (time_us_32 now) s.last_interrupt_time = now - prev := by
    rw [hlast]; exact sub32_of_le prev now hord hgap
  refine ⟨fun h => ?_, fun h => ?_⟩
  · have hc : gpio_callback ENCODER_PIN events now s =
        { s with pulse_count := (s.pulse_count + 1) % 2 ^ 32,
                 last_interrupt_time := time_us_32 now } := by
      unfold gpio_callback
      simp [hsub, h]
    refine ⟨hc, fun hlt => ?_⟩
    rw [hc]
    exact Nat.mod_eq_of_lt hlt
  · unfold gpio_callback
    simp [hsub, Nat.not_lt.mpr h]

/-- Witness of C5.  Edges after an accepted edge at 5000 us: the one at 5400 us is dropped, the
one at 6001 us is counted, and one that arrives across the wrap of the 32-bit timer
is counted as well. -/
theorem encoder_debounce_witness :
    gpio_callback ENCODER_PIN 8 5400
        { boot_state with pulse_count := 7, last_interrupt_time := 5000 } =
      { boot_state with pulse_count := 7, last_interrupt_time := 5000 } ∧
    (gpio_callback ENCODER_PIN 8 6001
        { boot_state with pulse_count := 7, last_interrupt_time := 5000 }).pulse_count = 8 ∧
    (gpio_callback ENCODER_PIN 8 (2 ^ 32 + 900)
        { boot_state with pulse_count := 7, last_interrupt_time := 2 ^ 32 - 200 }).pulse_count
      = 8 :=
  ⟨(encoder_debounce { boot_state with pulse_count := 7, last_interrupt_time := 5000 }
      8 5000 5400 (by decide) (by decide) (by decide)).2 (by decide),
   ((encoder_debounce { boot_state with pulse_count := 7, last_interrupt_time := 5000 }
      8 5000 6001 (by decide) (by decide) (by decide)).1 (by decide)).2 (by decide),
   ((encoder_debounce { boot_state with pulse_count := 7, last_interrupt_time := 2 ^ 32 - 200 }
      8 (2 ^ 32 - 200) (2 ^ 32 + 900) (by decide) (by decide) (by decide)).1 (by decide)).2
      (by decide)⟩

theorem deliver_spec_debounce_aux (ts : List Nat) :
    ∀ (s : State) (a e : Nat), s.last_interrupt_time = time_us_32 a → a ≤ e → e - a ≤ 1000 →
      List.Chain (fun x y => x ≤ y ∧ y - x < 2 ^ 32 - 1000) e ts →
      s.pulse_count + ts.length < 2 ^ 32 →
      (deliver s (encoder_edges ts)).pulse_count = (spec_debounce a s.pulse_count ts).2 ∧
      (deliver s (encoder_edges ts)).last_interrupt_time
        = time_us_32 (spec_debounce a s.pulse_count ts).1 := by
  induction ts with
  | nil =>
    intro s a e hlast _ _ _ _
    simp [encoder_edges, deliver_nil, spec_debounce, hlast]
  | cons t ts ih =>
    intro s a e hlast hae hea hchain hroom
    rw [List.chain_cons] at hchain
    obtain ⟨⟨het, hgap⟩, hrest⟩ := hchain
    simp only [List.length_cons] at hroom
    have hsub : sub32 (time_us_32 t) s.last_interrupt_time = t - a := by
      rw [hlast]; exact sub32_of_le a t (by omega) (by omega)
    simp only [encoder_edges, List.map_cons, deliver_cons, spec_debounce]
    by_cases hacc : 1000 < t - a
    · rw [if_pos hacc]
      have hstep : gpio_callback ENCODER_PIN 8 t s =
          { s with pulse_count := s.pulse_count + 1, last_interrupt_time := time_us_32 t } := by
        simp only [gpio_callback]
        rw [if_pos ⟨trivial, by rw [hsub]; exact hacc⟩, Nat.mod_eq_of_lt (by omega)]
      rw [hstep]
      exact ih _ t t rfl le_rfl (by omega) hrest (by simp only; omega)
    · rw [if_neg hacc]
      have hstep : gpio_callback ENCODER_PIN 8 t s = s := by
        simp only [gpio_callback]
        rw [if_neg (fun h => hacc (by rw [← hsub]; exact h.2))]
      rw [hstep]
      exact ih s a t hlast (by omega) (by omega) hrest (by omega)

/-- On every sequence of encoder edges with non-decreasing timer values, consecutive
edges less than `2 ^ 32 - 1000` us apart, the 32-bit arithmetic of `gpio_callback`
counts exactly the edges the debounce rule accepts on unbounded time. -/
theorem deliver_spec_debounce (s : State) (prev : Nat) (ts : List Nat)
    (hlast : s.last_interrupt_time = time_us_32 prev)
    (hchain : List.Chain (fun x y => x ≤ y ∧ y - x < 2 ^ 32 - 1000) prev ts)
    (hroom : s.pulse_count + ts.length < 2 ^ 32) :
    (deliver s (encoder_edges ts)).pulse_count = (spec_debounce prev s.pulse_count ts).2 ∧
    (deliver s (encoder_edges ts)).last_interrupt_time
      = time_us_32 (spec_debounce prev s.pulse_count ts).1 :=
  deliver_spec_debounce_aux ts s prev prev hlast le_rfl (by simp) hchain hroom

/-! ## The wait loop of a turn -/

theorem reaches_cons (needed : Nat) (s : State) (b : List Irq) (rest : List (List Irq)) :
    reaches needed s (b :: rest) ↔
      needed ≤ (deliver s b).pulse_count ∨ reaches needed (deliver s b) rest := by
  constructor
  · rintro ⟨k, hk, h⟩
    cases k with
    | zero =>
      left
      simpa using h
    | succ k =>
      right
      refine ⟨k, by simpa using hk, ?_⟩
      simpa [deliver_append] using h
  · rintro (h | ⟨k, hk, h⟩)
    · exact ⟨0, by simp, by simpa using h⟩
    · exact ⟨k + 1, by simpa using hk, by simpa [deliver_append] using h⟩

theorem wait_turn_of_reaches (needed : Nat) (s : State) (l : List (List Irq))
    (h : reaches needed s l) : ∃ w, wait_turn needed s l = .done w := by
  induction l generalizing s with
  | nil =>
    obtain ⟨k, hk, _⟩ := h
    simp at hk
  | cons b rest ih =>
    simp only [wait_turn]
    by_cases hlt : (deliver s b).pulse_count < needed
    · rw [if_pos hlt]
      rcases (reaches_cons needed s b rest).1 h with h1 | h1
      · omega
      · exact ih _ h1
    · rw [if_neg hlt]
      exact ⟨_, rfl⟩

theorem wait_turn_done (needed : Nat) (s : State) (l : List (List Irq)) (w : State)
    (h : wait_turn needed s l = .done w) :
    needed ≤ w.pulse_count ∧ ∃ k, k < l.length ∧ w = deliver s (l.take (k + 1)).flatten := by
  induction l generalizing s with
  | nil => simp [wait_turn] at h
  | cons b rest ih =>
    simp only [wait_turn] at h
    by_cases hlt : (deliver s b).pulse_count < needed
    · rw [if_pos hlt] at h
      obtain ⟨h1, k, hk, h2⟩ := ih _ h
      exact ⟨h1, k + 1, by simpa using hk, by simpa [deliver_append] using h2⟩
    · rw [if_neg hlt] at h
      injection h with h
      subst h
      exact ⟨by omega, 0, by simp, by simp⟩

theorem wait_turn_stalled (needed : Nat) (s : State) (l : List (List Irq))
    (h : ¬ reaches needed s l) : ∃ w, wait_turn needed s l = .stalled w := by
  cases hw : wait_turn needed s l with
  | stalled w => exact ⟨w, rfl⟩
  | done w =>
    obtain ⟨h1, k, hk, h2⟩ := wait_turn_done needed s l w hw
    exact absurd ⟨k, hk, h2 ▸ h1⟩ h

theorem wait_turn_frame (needed : Nat) (s : State) (l : List (List Irq)) (w : State)
    (h : wait_turn needed s l = .done w ∨ wait_turn needed s l = .stalled w) :
    w.log = s.log ∧ w.in1 = s.in1 ∧ w.in2 = s.in2 ∧ w.in3 = s.in3 ∧ w.in4 = s.in4 := by
  induction l generalizing s with
  | nil =>
    simp only [wait_turn] at h
    rcases h with h | h
    · cases h
    · injection h with h
      subst h
      simp
  | cons b rest ih =>
    simp only [wait_turn] at h
    have hf := deliver_frame s b
    by_cases hlt : (deliver s b).pulse_count < needed
    · rw [if_pos hlt] at h
      have := ih _ h
      simpa [hf.1, hf.2.1, hf.2.2.1, hf.2.2.2.1, hf.2.2.2.2] using this
    · rw [if_neg hlt] at h
      rcases h with h | h
      · injection h with h
        subst h
        exact hf
      · cases h

/-- A right turn whose wait loop is fed enough pulses returns, with the motors
stopped, having logged the pivot and the stop. -/
theorem turn_90_degrees_right_done (s : State) (irqs : List (List Irq))
    (h : reaches pulses_needed_turn (turn_90_degrees_right_drive s) irqs) :
    ∃ w, turn_90_degrees_right s irqs = .done w ∧
      w.log = s.log ++ [.turn_90_degrees_right, .stop_motors] ∧
      pulses_needed_turn ≤ w.pulse_count ∧
      w.in1 = false ∧ w.in2 = false ∧ w.in3 = false ∧ w.in4 = false := by
  obtain ⟨w, hw⟩ := wait_turn_of_reaches _ _ _ h
  have hf := wait_turn_frame _ _ _ w (Or.inl hw)
  have hc := (wait_turn_done _ _ _ w hw).1
  refine ⟨stop_motors w, by simp [turn_90_degrees_right, hw], ?_, ?_, ?_⟩
  · simp [stop_motors_eq, hf.1, turn_90_degrees_right_drive_eq]
  · simpa [stop_motors_eq] using hc
  · simp [stop_motors_eq]

/-- A left turn whose wait loop is fed enough pulses returns, with the motors
stopped, having logged the pivot and the stop. -/
theorem turn_90_degrees_left_done (s : State) (irqs : List (List Irq))
    (h : reaches pulses_needed_turn (turn_90_degrees_left_drive s) irqs) :
    ∃ w, turn_90_degrees_left s irqs = .done w ∧
      w.log = s.log ++ [.turn_90_degrees_left, .stop_motors] ∧
      pulses_needed_turn ≤ w.pulse_count ∧
      w.in1 = false ∧ w.in2 = false ∧ w.in3 = false ∧ w.in4 = false := by
  obtain ⟨w, hw⟩ := wait_turn_of_reaches _ _ _ h
  have hf := wait_turn_frame _ _ _ w (Or.inl hw)
  have hc := (wait_turn_done _ _ _ w hw).1
  refine ⟨stop_motors w, by simp [turn_90_degrees_left, hw], ?_, ?_, ?_⟩
  · simp [stop_motors_eq, hf.1, turn_90_degrees_left_drive_eq]
  · simpa [stop_motors_eq] using hc
  · simp [stop_motors_eq]

theorem paused_log (s : State) (c : Cycle) :
    (paused s c).log = s.log ++ [.stop_motors, .sleep_ms 1000] := by
  simp [paused, sleep_ms_eq, stop_motors_eq]

theorem paused_pins (s : State) (c : Cycle) :
    (paused s c).in1 = false ∧ (paused s c).in2 = false ∧ (paused s c).in3 = false ∧
    (paused s c).in4 = false := by
  simp [paused, sleep_ms_eq, stop_motors_eq]

theorem sensed_log (s : State) (c : Cycle) :
    (sensed s c).log = s.log ++ [.sleep_ms 50, .sleep_ms 50] := by
  simp [sensed, sleep_ms_eq]

/-! ## C1 : the avoidance decision -/

theorem loop_body_front (needed : Nat) (s : State) (c : Cycle)
    (hfront : 0 < c.front_distance ∧ c.front_distance ≤ 30) :
    loop_body needed s c =
      match avoid_obstacle (sensed s c) c with
      | .next s2 => target_check needed s2 c
      | other => other := by
  simp only [loop_body, sensed]
  rw [if_pos (by exact hfront)]

theorem loop_body_clear (needed : Nat) (s : State) (c : Cycle)
    (hfront : ¬ (0 < c.front_distance ∧ c.front_distance ≤ 30)) :
    loop_body needed s c = target_check needed (sensed s c) c := by
  simp only [loop_body, sensed]
  rw [if_neg (by exact hfront)]

theorem avoid_obstacle_boxed (t : State) (c : Cycle)
    (h : blocked c.left_distance ∧ blocked c.right_distance) :
    avoid_obstacle t c = .exit (paused t c) := by
  obtain ⟨⟨h1, h2⟩, h3, h4⟩ := h
  simp only [avoid_obstacle, paused]
  rw [if_pos ⟨h1, h2, h3, h4⟩]

theorem avoid_obstacle_right (t : State) (c : Cycle)
    (h : blocked c.left_distance ∧ ¬ blocked c.right_distance) :
    avoid_obstacle t c =
      match turn_90_degrees_right (paused t c) c.irq_turn with
      | .stalled s2 => .hang s2
      | .done s2 => .next (set_motor_forward s2) := by
  obtain ⟨⟨h1, h2⟩, h3⟩ := h
  simp only [avoid_obstacle, paused]
  rw [if_neg (fun hh => h3 ⟨hh.2.2.1, hh.2.2.2⟩), if_pos ⟨h1, h2⟩]

theorem avoid_obstacle_left (t : State) (c : Cycle) (h : ¬ blocked c.left_distance) :
    avoid_obstacle t c =
      match turn_90_degrees_left (paused t c) c.irq_turn with
      | .stalled s2 => .hang s2
      | .done s2 => .next (set_motor_forward s2) := by
  simp only [avoid_obstacle, paused]
  rw [if_neg (fun hh => h ⟨hh.1, hh.2.1⟩), if_neg (by exact h)]
  simp

/-- C1: in an iteration whose front reading is in (0, 30], the obstacle block runs
before the target check, and with `blocked x` meaning `0 < x ≤ 30`:
both sides blocked ends the run (`return 0`) after stop and pause, with no pivot;
only left blocked pivots right; only right blocked pivots left; neither blocked
pivots left; and every pivot whose wait loop receives its pulses is followed by
`stop_motors` and `set_motor_forward`, leaving both motors at their forward levels. -/
theorem avoidance_decision (needed : Nat) (s : State) (c : Cycle)
    (hfront : 0 < c.front_distance ∧ c.front_distance ≤ 30) :
    (blocked c.left_distance ∧ blocked c.right_distance →
      ∀ rest, ∃ s1, main_loop needed s (c :: rest) = .returned 0 s1 ∧
        s1.log = s.log ++ [.sleep_ms 50, .sleep_ms 50, .stop_motors, .sleep_ms 1000]) ∧
    (blocked c.left_distance ∧ ¬ blocked c.right_distance →
      reaches pulses_needed_turn (turn_90_degrees_right_drive (paused (sensed s c) c)) c.irq_turn →
      ∃ s1, avoid_obstacle (sensed s c) c = .next s1 ∧
        loop_body needed s c = target_check needed s1 c ∧
        s1.log = s.log ++ [.sleep_ms 50, .sleep_ms 50, .stop_motors, .sleep_ms 1000,
          .turn_90_degrees_right, .stop_motors, .set_motor_forward] ∧
        left_motor s1 = (false, true) ∧ right_motor s1 = (false, true)) ∧
    (¬ blocked c.left_distance →
      reaches pulses_needed_turn (turn_90_degrees_left_drive (paused (sensed s c) c)) c.irq_turn →
      ∃ s1, avoid_obstacle (sensed s c) c = .next s1 ∧
        loop_body needed s c = target_check needed s1 c ∧
        s1.log = s.log ++ [.sleep_ms 50, .sleep_ms 50, .stop_motors, .sleep_ms 1000,
          .turn_90_degrees_left, .stop_motors, .set_motor_forward] ∧
        left_motor s1 = (false, true) ∧ right_motor s1 = (false, true)) := by
  have hbody := loop_body_front needed s c hfront
  refine ⟨fun h rest => ?_, fun h hr => ?_, fun h hr => ?_⟩
  · refine ⟨paused (sensed s c) c, ?_, ?_⟩
    · rw [main_loop, hbody, avoid_obstacle_boxed _ _ h]
    · simp [paused_log, sensed_log]
  · obtain ⟨w, hw, hlog, -, -⟩ := turn_90_degrees_right_done _ _ hr
    have ha : avoid_obstacle (sensed s c) c = .next (set_motor_forward w) := by
      rw [avoid_obstacle_right _ _ h, hw]
    refine ⟨set_motor_forward w, ha, ?_, ?_, ?_, ?_⟩
    · rw [hbody, ha]
    · simp [set_motor_forward_eq, hlog, paused_log, sensed_log]
    · simp [left_motor, set_motor_forward_eq]
    · simp [right_motor, set_motor_forward_eq]
  · obtain ⟨w, hw, hlog, -, -⟩ := turn_90_degrees_left_done _ _ hr
    have ha : avoid_obstacle (sensed s c) c = .next (set_motor_forward w) := by
      rw [avoid_obstacle_left _ _ h, hw]
    refine ⟨set_motor_forward w, ha, ?_, ?_, ?_, ?_⟩
    · rw [hbody, ha]
    · simp [set_motor_forward_eq, hlog, paused_log, sensed_log]
    · simp [left_motor, set_motor_forward_eq]
    · simp [right_motor, set_motor_forward_eq]

/-- Witness of C1: front = 25, left = 10, right = 50 gives a right pivot followed by
forward drive. -/
theorem avoidance_decision_witness :
    ∃ s1, avoid_obstacle (sensed (loop_entry []) scenario_left_blocked) scenario_left_blocked
        = .next s1 ∧
      loop_body 281 (loop_entry []) scenario_left_blocked
        = target_check 281 s1 scenario_left_blocked ∧
      s1.log = (loop_entry []).log ++ [.sleep_ms 50, .sleep_ms 50, .stop_motors, .sleep_ms 1000,
          .turn_90_degrees_right, .stop_motors, .set_motor_forward] ∧
      left_motor s1 = (false, true) ∧ right_motor s1 = (false, true) :=
  (avoidance_decision 281 (loop_entry []) scenario_left_blocked
    (by norm_num [scenario_left_blocked])).2.1
    (by norm_num [scenario_left_blocked, blocked])
    ⟨0, by decide, by decide!⟩

/-! ## C2 : order of the two checks -/

theorem gpio_callback_count (g e t : Nat) (s : State) (h : s.pulse_count + 1 < 2 ^ 32) :
    s.pulse_count ≤ (gpio_callback g e t s).pulse_count ∧
    (gpio_callback g e t s).pulse_count ≤ s.pulse_count + 1 := by
  simp only [gpio_callback]
  split
  · simp only
    rw [Nat.mod_eq_of_lt h]
    omega
  · omega

/-- Without wrap of the counter, servicing interrupts never lowers the pulse count
and raises it by at most one per interrupt. -/
theorem deliver_count_bounds (s : State) (l : List Irq)
    (h : s.pulse_count + l.length < 2 ^ 32) :
    s.pulse_count ≤ (deliver s l).pulse_count ∧
    (deliver s l).pulse_count ≤ s.pulse_count + l.length := by
  induction l generalizing s with
  | nil => simp [deliver_nil]
  | cons i l ih =>
    rw [deliver_cons]
    simp only [List.length_cons] at h ⊢
    have h1 := gpio_callback_count i.gpio i.events i.time s (by omega)
    have h2 := ih (gpio_callback i.gpio i.events i.time s) (by omega)
    omega

theorem target_check_reached (needed : Nat) (s : State) (c : Cycle)
    (h : needed ≤ (deliver s c.irq_tail).pulse_count) :
    target_check needed s c = .exit (stop_motors (deliver s c.irq_tail)) := by
  simp only [target_check]
  rw [if_pos (by exact h)]

theorem target_check_below (needed : Nat) (s : State) (c : Cycle)
    (h : (deliver s c.irq_tail).pulse_count < needed) :
    target_check needed s c = .next (deliver s c.irq_tail) := by
  simp only [target_check]
  rw [if_neg (by simpa using h)]

theorem target_check_log (needed : Nat) (s : State) (c : Cycle) :
    ∃ tail, (target_check needed s c).state.log = s.log ++ tail ∧
      ∀ a ∈ tail, a = Action.stop_motors := by
  by_cases h : needed ≤ (deliver s c.irq_tail).pulse_count
  · rw [target_check_reached needed s c h]
    exact ⟨[.stop_motors], by simp [Step.state, stop_motors_eq], by simp⟩
  · rw [target_check_below needed s c (by omega)]
    exact ⟨[], by simp [Step.state], by simp⟩

theorem turn_90_degrees_right_log (s : State) (irqs : List (List Irq)) :
    ∃ tail, (turn_90_degrees_right s irqs).state.log = s.log ++ .turn_90_degrees_right :: tail := by
  simp only [turn_90_degrees_right]
  cases hw : wait_turn pulses_needed_turn (turn_90_degrees_right_drive s) irqs with
  | done w =>
    have hf := wait_turn_frame _ _ _ w (Or.inl hw)
    exact ⟨[.stop_motors], by simp [Turn.state, stop_motors_eq, hf.1, turn_90_degrees_right_drive_eq]⟩
  | stalled w =>
    have hf := wait_turn_frame _ _ _ w (Or.inr hw)
    exact ⟨[], by simp [Turn.state, hf.1, turn_90_degrees_right_drive_eq]⟩

theorem turn_90_degrees_left_log (s : State) (irqs : List (List Irq)) :
    ∃ tail, (turn_90_degrees_left s irqs).state.log = s.log ++ .turn_90_degrees_left :: tail := by
  simp only [turn_90_degrees_left]
  cases hw : wait_turn pulses_needed_turn (turn_90_degrees_left_drive s) irqs with
  | done w =>
    have hf := wait_turn_frame _ _ _ w (Or.inl hw)
    exact ⟨[.stop_motors], by simp [Turn.state, stop_motors_eq, hf.1, turn_90_degrees_left_drive_eq]⟩
  | stalled w =>
    have hf := wait_turn_frame _ _ _ w (Or.inr hw)
    exact ⟨[], by simp [Turn.state, hf.1, turn_90_degrees_left_drive_eq]⟩

/-- Whatever the side readings, the obstacle block begins with `stop_motors` and the
one second pause. -/
theorem avoid_obstacle_log (t : State) (c : Cycle) :
    ∃ tail, (avoid_obstacle t c).state.log = t.log ++ [.stop_motors, .sleep_ms 1000] ++ tail := by
  by_cases hl : blocked c.left_distance
  · by_cases hr : blocked c.right_distance
    · rw [avoid_obstacle_boxed t c ⟨hl, hr⟩]
      exact ⟨[], by simp [Step.state, paused_log]⟩
    · rw [avoid_obstacle_right t c ⟨hl, hr⟩]
      obtain ⟨tail, ht⟩ := turn_90_degrees_right_log (paused t c) c.irq_turn
      cases hw : turn_90_degrees_right (paused t c) c.irq_turn with
      | done w =>
        rw [hw] at ht
        refine ⟨.turn_90_degrees_right :: tail ++ [.set_motor_forward], ?_⟩
        simp only [Turn.state] at ht
        simp [Step.state, set_motor_forward_eq, ht, paused_log]
      | stalled w =>
        rw [hw] at ht
        refine ⟨.turn_90_degrees_right :: tail, ?_⟩
        simp only [Turn.state] at ht
        simp [Step.state, ht, paused_log]
  · rw [avoid_obstacle_left t c hl]
    obtain ⟨tail, ht⟩ := turn_90_degrees_left_log (paused t c) c.irq_turn
    cases hw : turn_90_degrees_left (paused t c) c.irq_turn with
    | done w =>
      rw [hw] at ht
      refine ⟨.turn_90_degrees_left :: tail ++ [.set_motor_forward], ?_⟩
      simp only [Turn.state] at ht
      simp [Step.state, set_motor_forward_eq, ht, paused_log]
    | stalled w =>
      rw [hw] at ht
      refine ⟨.turn_90_degrees_left :: tail, ?_⟩
      simp only [Turn.state] at ht
      simp [Step.state, ht, paused_log]

/-- C2 (as the code orders the checks): the front obstacle test comes first and the
target test second.  In an iteration whose pulse count has reached the target by the
time the readings are complete, the run ends with `stop_motors` and no pause or pivot
when the front reading is not in (0, 30]; when it is in (0, 30] the iteration first
stops the motors and holds the one second pause, and only an iteration that goes on
past the obstacle block reaches the target test. -/
theorem obstacle_check_precedes_target_check (needed : Nat) (s : State) (c : Cycle)
    (hreached : needed ≤ (sensed s c).pulse_count)
    (hroom : (sensed s c).pulse_count + c.irq_tail.length < 2 ^ 32) :
    (¬ (0 < c.front_distance ∧ c.front_distance ≤ 30) →
      ∀ rest, ∃ s1, main_loop needed s (c :: rest) = .returned 0 s1 ∧
        s1.log = s.log ++ [.sleep_ms 50, .sleep_ms 50, .stop_motors] ∧
        s1.in1 = false ∧ s1.in2 = false ∧ s1.in3 = false ∧ s1.in4 = false) ∧
    (0 < c.front_distance ∧ c.front_distance ≤ 30 →
      (∃ tail, (loop_body needed s c).state.log =
        s.log ++ [.sleep_ms 50, .sleep_ms 50, .stop_motors, .sleep_ms 1000] ++ tail) ∧
      (loop_body needed s c =
        match avoid_obstacle (sensed s c) c with
        | .next s2 => target_check needed s2 c
        | other => other)) := by
  refine ⟨fun hf rest => ?_, fun hf => ⟨?_, loop_body_front needed s c hf⟩⟩
  · have hb := (deliver_count_bounds (sensed s c) c.irq_tail hroom).1
    refine ⟨stop_motors (deliver (sensed s c) c.irq_tail), ?_, ?_, ?_⟩
    · rw [main_loop, loop_body_clear needed s c hf, target_check_reached _ _ _ (by omega)]
    · simp [stop_motors_eq, sensed_log]
    · simp [stop_motors_eq]
  · rw [loop_body_front needed s c hf]
    obtain ⟨tail, ht⟩ := avoid_obstacle_log (sensed s c) c
    cases ha : avoid_obstacle (sensed s c) c with
    | exit s2 =>
      rw [ha] at ht
      exact ⟨tail, by simpa [Step.state, sensed_log] using ht⟩
    | hang s2 =>
      rw [ha] at ht
      exact ⟨tail, by simpa [Step.state, sensed_log] using ht⟩
    | next s2 =>
      rw [ha] at ht
      obtain ⟨tail2, ht2, -⟩ := target_check_log needed s2 c
      refine ⟨tail ++ tail2, ?_⟩
      simp only [Step.state] at ht
      simp [ht2, ht, sensed_log]

/-- Witness of the corrected C2: the target is reached in an iteration with no front
obstacle, and the run ends at once. -/
theorem obstacle_check_precedes_target_check_witness :
    ∃ s1, main_loop 281 (loop_entry []) [scenario_target_reached] = .returned 0 s1 ∧
      s1.log = (loop_entry []).log ++ [.sleep_ms 50, .sleep_ms 50, .stop_motors] ∧
      s1.in1 = false ∧ s1.in2 = false ∧ s1.in3 = false ∧ s1.in4 = false :=
  (obstacle_check_precedes_target_check 281 (loop_entry []) scenario_target_reached
    (by decide!) (by decide!)).1 (by norm_num [scenario_target_reached]) []

/-- C2 as stated fails: after an iteration that leaves the count at 270, the next
iteration has counted 281 pulses (the target) when its readings are complete, its front
reading is 25, and the program performs the pause and a right pivot, resumes forward
drive with the count at 31, and does not end the run. -/
theorem target_check_not_first :
    pulses_needed_forward = 281 ∧
    main ⟨[], [scenario_cruise]⟩ = .running (main ⟨[], [scenario_cruise]⟩).state ∧
    (sensed (main ⟨[], [scenario_cruise]⟩).state scenario_late_obstacle).pulse_count = 281 ∧
    main ⟨[], [scenario_cruise, scenario_late_obstacle]⟩
      = .running (main ⟨[], [scenario_cruise, scenario_late_obstacle]⟩).state ∧
    (main ⟨[], [scenario_cruise, scenario_late_obstacle]⟩).state.log =
      (main ⟨[], [scenario_cruise]⟩).state.log ++
        [.sleep_ms 50, .sleep_ms 50, .stop_motors, .sleep_ms 1000, .turn_90_degrees_right,
         .stop_motors, .set_motor_forward] ∧
    (main ⟨[], [scenario_cruise, scenario_late_obstacle]⟩).state.pulse_count = 31 := by
  decide!

/-! ## C6 : Timeout readings count as no obstacle -/

theorem clear_front_not_obstacle (c : Cycle) (h : clear_front c) :
    ¬ (0 < c.front_distance ∧ c.front_distance ≤ 30) := by
  rcases h with h | h
  · rw [h]; norm_num
  · intro hh; exact absurd hh.2 (not_le.mpr h)

theorem cruise_nil (s : State) : cruise s [] = s := rfl

theorem cruise_cons (s : State) (c : Cycle) (cs : List Cycle) :
    cruise s (c :: cs) = cruise (deliver (sensed s c) c.irq_tail) cs := rfl

theorem cruise_append (s : State) (a b : List Cycle) :
    cruise s (a ++ b) = cruise (cruise s a) b := by
  simp [cruise, List.foldl_append]

theorem cruise_log (s : State) (cs : List Cycle) :
    (cruise s cs).log = s.log ++ List.replicate (2 * cs.length) (.sleep_ms 50) := by
  induction cs generalizing s with
  | nil => simp [cruise_nil]
  | cons c cs ih =>
    rw [cruise_cons, ih]
    simp only [deliver_log, sensed_log, List.length_cons, List.append_assoc]
    congr 1

/-- In a run without front obstacles the loop only ever adds 50 ms delays and, on
exit, `stop_motors` to the log, and it never stalls. -/
theorem main_loop_clear_log (needed : Nat) (s : State) (cs : List Cycle)
    (hclear : ∀ c ∈ cs, clear_front c) :
    (∃ tail, (main_loop needed s cs).state.log = s.log ++ tail ∧
      ∀ a ∈ tail, a = Action.sleep_ms 50 ∨ a = Action.stop_motors) ∧
    ∀ w, main_loop needed s cs ≠ .hung w := by
  induction cs generalizing s with
  | nil => exact ⟨⟨[], by simp [main_loop, Run.state], by simp⟩, by simp [main_loop]⟩
  | cons c cs ih =>
    have hc := clear_front_not_obstacle c (hclear c (by simp))
    have hrest : ∀ x ∈ cs, clear_front x := fun x hx => hclear x (by simp [hx])
    rw [main_loop, loop_body_clear needed s c hc]
    by_cases h : needed ≤ (deliver (sensed s c) c.irq_tail).pulse_count
    · rw [target_check_reached needed _ c h]
      refine ⟨⟨[.sleep_ms 50, .sleep_ms 50, .stop_motors], ?_, ?_⟩, by simp⟩
      · simp [Run.state, stop_motors_eq, sensed_log]
      · simp
    · rw [target_check_below needed _ c (by omega)]
      obtain ⟨⟨tail, ht, hall⟩, hh⟩ := ih (deliver (sensed s c) c.irq_tail) hrest
      refine ⟨⟨[.sleep_ms 50, .sleep_ms 50] ++ tail, ?_, ?_⟩, hh⟩
      · rw [ht]; simp [sensed_log]
      · intro a ha
        simp only [List.cons_append, List.nil_append, List.mem_cons] at ha
        rcases ha with ha | ha | ha
        · exact Or.inl ha
        · exact Or.inl ha
        · exact hall a ha

/-- A run without front obstacles ends in the first iteration whose target check
finds the count at or above the target. -/
theorem main_loop_clear_stop (needed : Nat) (s : State) (pre : List Cycle) (c : Cycle)
    (post : List Cycle) (hpre : ∀ x ∈ pre, clear_front x) (hc : clear_front c)
    (hbelow : ∀ j, j < pre.length → (cruise s (pre.take (j + 1))).pulse_count < needed)
    (hreach : needed ≤ (cruise s (pre ++ [c])).pulse_count) :
    main_loop needed s (pre ++ c :: post) = .returned 0 (stop_motors (cruise s (pre ++ [c]))) := by
  induction pre generalizing s with
  | nil =>
    simp only [List.nil_append, cruise_cons, cruise_nil] at hreach ⊢
    rw [main_loop, loop_body_clear needed s c (clear_front_not_obstacle c hc),
      target_check_reached needed _ c hreach]
  | cons x pre ih =>
    have hx := clear_front_not_obstacle x (hpre x (by simp))
    have h0 := hbelow 0 (by simp)
    simp only [List.take_succ_cons, List.take_zero, cruise_cons, cruise_nil] at h0
    simp only [List.cons_append, cruise_cons] at hreach ⊢
    rw [main_loop, loop_body_clear needed s x hx, target_check_below needed _ x h0]
    refine ih _ (fun y hy => hpre y (by simp [hy])) (fun j hj => ?_) hreach
    have := hbelow (j + 1) (by simpa using hj)
    simpa [cruise_cons] using this

/-- C6: in every position a Timeout reading (-1) leads to the same iteration as a
reading above 30 cm; a run all of whose front readings are Timeout or above 30 cm
never performs the one second pause or a pivot and never stalls; and such a run ends
(`return 0`, motors stopped, log closed by `stop_motors`) in the first iteration whose
target check finds at least 281 pulses. -/
theorem timeout_is_no_obstacle :
    (∀ (needed : Nat) (s : State) (c : Cycle) (y : ℚ), 30 < y →
      loop_body needed s { c with front_distance := -1 }
        = loop_body needed s { c with front_distance := y } ∧
      loop_body needed s { c with left_distance := -1 }
        = loop_body needed s { c with left_distance := y } ∧
      loop_body needed s { c with right_distance := -1 }
        = loop_body needed s { c with right_distance := y }) ∧
    (∀ sc : Script, (∀ c ∈ sc.cycles, clear_front c) →
      Action.sleep_ms 1000 ∉ (main sc).state.log ∧
      Action.turn_90_degrees_left ∉ (main sc).state.log ∧
      Action.turn_90_degrees_right ∉ (main sc).state.log ∧
      ∀ w, main sc ≠ .hung w) ∧
    (∀ (boot : List Irq) (pre : List Cycle) (c : Cycle) (post : List Cycle),
      (∀ x ∈ pre, clear_front x) → clear_front c →
      (∀ j, j < pre.length → (cruise (loop_entry boot) (pre.take (j + 1))).pulse_count < 281) →
      281 ≤ (cruise (loop_entry boot) (pre ++ [c])).pulse_count →
      ∃ s1, main ⟨boot, pre ++ c :: post⟩ = .returned 0 s1 ∧
        s1.in1 = false ∧ s1.in2 = false ∧ s1.in3 = false ∧ s1.in4 = false ∧
        s1.log = [.sleep_ms 500, .set_motor_forward] ++
          List.replicate (2 * (pre.length + 1)) (.sleep_ms 50) ++ [.stop_motors]) := by
  refine ⟨fun needed s c y hy => ?_, fun sc hclear => ?_, fun boot pre c post hpre hc hb hr => ?_⟩
  · have h1 : ¬ y ≤ 30 := not_le.mpr hy
    refine ⟨?_, ?_, ?_⟩
    · norm_num [loop_body, target_check, h1]
    · norm_num [loop_body, avoid_obstacle, target_check, h1]
    · norm_num [loop_body, avoid_obstacle, target_check, h1]
  · obtain ⟨⟨tail, ht, hall⟩, hh⟩ :=
      main_loop_clear_log pulses_needed_forward (loop_entry sc.boot) sc.cycles hclear
    have hentry : (loop_entry sc.boot).log = [.sleep_ms 500, .set_motor_forward] := by
      simp [loop_entry, set_motor_forward_eq, sleep_ms_eq, boot_state]
    have hmem : ∀ a ∈ (main sc).state.log,
        a = Action.sleep_ms 500 ∨ a = Action.set_motor_forward ∨ a = Action.sleep_ms 50 ∨
          a = Action.stop_motors := by
      intro a ha
      rw [main, ht, hentry] at ha
      simp only [List.cons_append, List.nil_append, List.mem_cons] at ha
      rcases ha with ha | ha | ha
      · exact Or.inl ha
      · exact Or.inr (Or.inl ha)
      · rcases hall a ha with h | h
        · exact Or.inr (Or.inr (Or.inl h))
        · exact Or.inr (Or.inr (Or.inr h))
    refine ⟨fun h => ?_, fun h => ?_, fun h => ?_, hh⟩
    · rcases hmem _ h with h | h | h | h <;> simp at h
    · rcases hmem _ h with h | h | h | h <;> simp at h
    · rcases hmem _ h with h | h | h | h <;> simp at h
  · refine ⟨stop_motors (cruise (loop_entry boot) (pre ++ [c])), ?_, ?_⟩
    · rw [main, pulses_needed_forward_eq]
      exact main_loop_clear_stop 281 _ pre c post hpre hc hb hr
    · have hentry : (loop_entry boot).log = [.sleep_ms 500, .set_motor_forward] := by
        simp [loop_entry, set_motor_forward_eq, sleep_ms_eq, boot_state]
      simp [stop_motors_eq, cruise_log, hentry]

/-- Witness of C6: 270 pulses in a first iteration whose sensors all time out, 11 more in
a second one whose front reading is 45 cm; the run ends there with the motors stopped. -/
theorem timeout_is_no_obstacle_witness :
    ∃ s1, main ⟨[], [scenario_cruise] ++ scenario_clear_finish :: []⟩ = .returned 0 s1 ∧
      s1.in1 = false ∧ s1.in2 = false ∧ s1.in3 = false ∧ s1.in4 = false ∧
      s1.log = [.sleep_ms 500, .set_motor_forward] ++
        List.replicate (2 * ([scenario_cruise].length + 1)) (.sleep_ms 50) ++ [.stop_motors] :=
  timeout_is_no_obstacle.2.2 [] [scenario_cruise] scenario_clear_finish []
    (by norm_num [scenario_cruise, clear_front])
    (by norm_num [scenario_clear_finish, clear_front])
    (by
      intro j hj
      have hj0 : j = 0 := by simpa using hj
      subst hj0
      decide!)
    (by decide!)

/-! ## C7 : the terminal state -/

theorem avoid_obstacle_exit (t : State) (c : Cycle) (s1 : State)
    (h : avoid_obstacle t c = .exit s1) : s1 = paused t c := by
  by_cases hl : blocked c.left_distance
  · by_cases hr : blocked c.right_distance
    · rw [avoid_obstacle_boxed t c ⟨hl, hr⟩] at h
      injection h with h
      exact h.symm
    · rw [avoid_obstacle_right t c ⟨hl, hr⟩] at h
      cases hw : turn_90_degrees_right (paused t c) c.irq_turn <;> rw [hw] at h <;> cases h
  · rw [avoid_obstacle_left t c hl] at h
    cases hw : turn_90_degrees_left (paused t c) c.irq_turn <;> rw [hw] at h <;> cases h

theorem target_check_exit (needed : Nat) (s : State) (c : Cycle) (s1 : State)
    (h : target_check needed s c = .exit s1) : s1 = stop_motors (deliver s c.irq_tail) := by
  by_cases hn : needed ≤ (deliver s c.irq_tail).pulse_count
  · rw [target_check_reached needed s c hn] at h
    injection h with h
    exact h.symm
  · rw [target_check_below needed s c (by omega)] at h
    cases h

/-- An iteration leaves the loop either from the obstacle block, after stop and pause,
or from the target check, after stop. -/
theorem loop_body_exit (needed : Nat) (s : State) (c : Cycle) (s1 : State)
    (h : loop_body needed s c = .exit s1) :
    (s1.in1 = false ∧ s1.in2 = false ∧ s1.in3 = false ∧ s1.in4 = false) ∧
    ∃ pre, s1.log = pre ++ [.stop_motors] ∨ s1.log = pre ++ [.stop_motors, .sleep_ms 1000] := by
  by_cases hf : 0 < c.front_distance ∧ c.front_distance ≤ 30
  · rw [loop_body_front needed s c hf] at h
    cases ha : avoid_obstacle (sensed s c) c with
    | exit s2 =>
      rw [ha] at h
      injection h with h
      subst h
      rw [avoid_obstacle_exit _ _ _ ha]
      exact ⟨paused_pins _ _, (sensed s c).log, Or.inr (paused_log _ _)⟩
    | hang s2 => rw [ha] at h; cases h
    | next s2 =>
      rw [ha] at h
      rw [target_check_exit needed s2 c s1 h]
      exact ⟨by simp [stop_motors_eq], (deliver s2 c.irq_tail).log, Or.inl (by simp [stop_motors_eq])⟩
  · rw [loop_body_clear needed s c hf] at h
    rw [target_check_exit needed _ c s1 h]
    exact ⟨by simp [stop_motors_eq], (deliver (sensed s c) c.irq_tail).log,
      Or.inl (by simp [stop_motors_eq])⟩

theorem main_loop_returned (needed : Nat) (s : State) (cs : List Cycle) (code : Int)
    (s1 : State) (h : main_loop needed s cs = .returned code s1) :
    code = 0 ∧ ∃ s0 c, loop_body needed s0 c = .exit s1 := by
  induction cs generalizing s with
  | nil => simp [main_loop] at h
  | cons c cs ih =>
    rw [main_loop] at h
    cases hb : loop_body needed s c with
    | exit s2 =>
      rw [hb] at h
      injection h with h1 h2
      subst h2
      exact ⟨h1.symm, s, c, hb⟩
    | next s2 =>
      rw [hb] at h
      exact ih s2 h
    | hang s2 =>
      rw [hb] at h
      cases h

/-- C7: whenever `main` returns, it returns 0, the four direction pins are 0, and the
log ends with `stop_motors`, followed at most by the one second pause of the boxed-in
exit; so the last motor command is `stop_motors` and no motion command follows it. -/
theorem terminal_state (sc : Script) (code : Int) (s1 : State)
    (h : main sc = .returned code s1) :
    code = 0 ∧
    (s1.in1 = false ∧ s1.in2 = false ∧ s1.in3 = false ∧ s1.in4 = false) ∧
    (∃ pre, s1.log = pre ++ [.stop_motors] ∨ s1.log = pre ++ [.stop_motors, .sleep_ms 1000]) ∧
    (s1.log.filter Action.isMotor).getLast? = some .stop_motors ∧
    ∃ pre post, s1.log = pre ++ .stop_motors :: post ∧ ∀ a ∈ post, a.isMotion = false := by
  obtain ⟨hcode, s0, c, hexit⟩ := main_loop_returned _ _ _ _ _ h
  obtain ⟨hpins, pre, hlog⟩ := loop_body_exit _ _ _ _ hexit
  refine ⟨hcode, hpins, ⟨pre, hlog⟩, ?_, ?_⟩
  · rcases hlog with hlog | hlog <;> rw [hlog] <;>
      simp [List.filter_append, List.filter_cons, Action.isMotor, List.getLast?_append]
  · rcases hlog with hlog | hlog
    · exact ⟨pre, [], by simpa using hlog, by simp⟩
    · exact ⟨pre, [.sleep_ms 1000], by simpa using hlog, by simp [Action.isMotion]⟩

/-- Witness of C7: with front = 25, left = 10, right = 10 in the first iteration the
run returns 0 with the pins at 0 and `stop_motors` as the last motor command. -/
theorem terminal_state_witness :
    main ⟨[], [scenario_boxed_in]⟩ = .returned 0 (main ⟨[], [scenario_boxed_in]⟩).state ∧
    ((0 : Int) = 0 ∧
    ((main ⟨[], [scenario_boxed_in]⟩).state.in1 = false ∧
      (main ⟨[], [scenario_boxed_in]⟩).state.in2 = false ∧
      (main ⟨[], [scenario_boxed_in]⟩).state.in3 = false ∧
      (main ⟨[], [scenario_boxed_in]⟩).state.in4 = false) ∧
    (∃ pre, (main ⟨[], [scenario_boxed_in]⟩).state.log = pre ++ [.stop_motors] ∨
      (main ⟨[], [scenario_boxed_in]⟩).state.log = pre ++ [.stop_motors, .sleep_ms 1000]) ∧
    ((main ⟨[], [scenario_boxed_in]⟩).state.log.filter Action.isMotor).getLast?
      = some .stop_motors ∧
    ∃ pre post, (main ⟨[], [scenario_boxed_in]⟩).state.log = pre ++ .stop_motors :: post ∧
      ∀ a ∈ post, a.isMotion = false) :=
  ⟨by decide!, terminal_state ⟨[], [scenario_boxed_in]⟩ 0 _ (by decide!)⟩

/-! ## C10 : a turn discards the forward count -/

theorem sensed_with_count (s : State) (p : Nat) (c : Cycle) :
    ∃ q, sensed { s with pulse_count := p } c = { sensed s c with pulse_count := q } :=
  deliver_with_count (sleep_ms 50 (sleep_ms 50 s)) p c.irq_sense

theorem paused_with_count (t : State) (q : Nat) (c : Cycle) :
    ∃ r, paused { t with pulse_count := q } c = { paused t c with pulse_count := r } :=
  deliver_with_count (sleep_ms 1000 (stop_motors t)) q c.irq_pause

theorem turn_90_degrees_right_with_count (t : State) (q : Nat) (irqs : List (List Irq)) :
    turn_90_degrees_right { t with pulse_count := q } irqs = turn_90_degrees_right t irqs := by
  simp [turn_90_degrees_right, turn_90_degrees_right_drive_eq]

theorem turn_90_degrees_left_with_count (t : State) (q : Nat) (irqs : List (List Irq)) :
    turn_90_degrees_left { t with pulse_count := q } irqs = turn_90_degrees_left t irqs := by
  simp [turn_90_degrees_left, turn_90_degrees_left_drive_eq]

theorem avoid_obstacle_with_count (t : State) (q : Nat) (c : Cycle)
    (hopen : ¬ (blocked c.left_distance ∧ blocked c.right_distance)) :
    avoid_obstacle { t with pulse_count := q } c = avoid_obstacle t c := by
  obtain ⟨r, hr⟩ := paused_with_count t q c
  by_cases hl : blocked c.left_distance
  · have hright : ¬ blocked c.right_distance := fun h => hopen ⟨hl, h⟩
    rw [avoid_obstacle_right _ c ⟨hl, hright⟩, avoid_obstacle_right _ c ⟨hl, hright⟩, hr,
      turn_90_degrees_right_with_count]
  · rw [avoid_obstacle_left _ c hl, avoid_obstacle_left _ c hl, hr,
      turn_90_degrees_left_with_count]

theorem avoid_obstacle_next_count (t : State) (c : Cycle) (s1 : State)
    (h : avoid_obstacle t c = .next s1) :
    pulses_needed_turn ≤ s1.pulse_count ∧
    ∃ k, k < c.irq_turn.length ∧
      s1.pulse_count =
        (deliver { paused t c with pulse_count := 0 } (c.irq_turn.take (k + 1)).flatten).pulse_count := by
  by_cases hl : blocked c.left_distance
  · by_cases hr : blocked c.right_distance
    · rw [avoid_obstacle_boxed t c ⟨hl, hr⟩] at h
      cases h
    · rw [avoid_obstacle_right t c ⟨hl, hr⟩] at h
      simp only [turn_90_degrees_right] at h
      cases hw : wait_turn pulses_needed_turn (turn_90_degrees_right_drive (paused t c)) c.irq_turn with
      | stalled w => rw [hw] at h; cases h
      | done w =>
        rw [hw] at h
        injection h with h
        subst h
        obtain ⟨h1, k, hk, h2⟩ := wait_turn_done _ _ _ w hw
        refine ⟨by simpa [set_motor_forward_eq, stop_motors_eq] using h1, k, hk, ?_⟩
        rw [turn_90_degrees_right_drive_eq] at h2
        have h3 := deliver_with_frame { paused t c with pulse_count := 0 }
          (c.irq_turn.take (k + 1)).flatten true false false true
          ((paused t c).log ++ [.turn_90_degrees_right])
        have h4 : w.pulse_count = (deliver { paused t c with pulse_count := 0 }
            (c.irq_turn.take (k + 1)).flatten).pulse_count := by
          rw [h2]; exact (congrArg State.pulse_count h3).trans rfl
        simpa [set_motor_forward_eq, stop_motors_eq] using h4
  · rw [avoid_obstacle_left t c hl] at h
    simp only [turn_90_degrees_left] at h
    cases hw : wait_turn pulses_needed_turn (turn_90_degrees_left_drive (paused t c)) c.irq_turn with
    | stalled w => rw [hw] at h; cases h
    | done w =>
      rw [hw] at h
      injection h with h
      subst h
      obtain ⟨h1, k, hk, h2⟩ := wait_turn_done _ _ _ w hw
      refine ⟨by simpa [set_motor_forward_eq, stop_motors_eq] using h1, k, hk, ?_⟩
      rw [turn_90_degrees_left_drive_eq] at h2
      have h3 := deliver_with_frame { paused t c with pulse_count := 0 }
        (c.irq_turn.take (k + 1)).flatten false true true false
        ((paused t c).log ++ [.turn_90_degrees_left])
      have h4 : w.pulse_count = (deliver { paused t c with pulse_count := 0 }
          (c.irq_turn.take (k + 1)).flatten).pulse_count := by
        rw [h2]; exact (congrArg State.pulse_count h3).trans rfl
      simpa [set_motor_forward_eq, stop_motors_eq] using h4

/-- C10: in an iteration that meets a front obstacle and is not boxed in, the run from
that iteration on is the same whatever the pulse count was before it; and when the
pivot completes, the pulse count it leaves for the target check is at least the turn
requirement and is exactly the count of the pulses accepted since the turn zeroed the
counter. -/
theorem turn_discards_progress (needed : Nat) (s : State) (p : Nat) (c : Cycle)
    (rest : List Cycle) (hfront : 0 < c.front_distance ∧ c.front_distance ≤ 30)
    (hopen : ¬ (blocked c.left_distance ∧ blocked c.right_distance)) :
    main_loop needed { s with pulse_count := p } (c :: rest) = main_loop needed s (c :: rest) ∧
    ∀ s1, avoid_obstacle (sensed s c) c = .next s1 →
      pulses_needed_turn ≤ s1.pulse_count ∧
      ∃ k, k < c.irq_turn.length ∧
        s1.pulse_count =
          (deliver { paused (sensed s c) c with pulse_count := 0 }
            (c.irq_turn.take (k + 1)).flatten).pulse_count := by
  refine ⟨?_, fun s1 h => avoid_obstacle_next_count _ c s1 h⟩
  obtain ⟨q, hq⟩ := sensed_with_count s p c
  rw [main_loop, main_loop, loop_body_front needed _ c hfront, loop_body_front needed s c hfront,
    hq, avoid_obstacle_with_count _ q c hopen]

/-- Witness of C10: the scenario front = 25, left = 10, right = 50 entered with 200
pulses counted and entered with none: both runs continue identically, with 31 pulses
on the counter after the turn. -/
theorem turn_discards_progress_witness :
    (main_loop 281 { loop_entry [] with pulse_count := 200 } (scenario_left_blocked :: [])
        = main_loop 281 (loop_entry []) (scenario_left_blocked :: []) ∧
      ∀ s1, avoid_obstacle (sensed (loop_entry []) scenario_left_blocked) scenario_left_blocked
          = .next s1 →
        pulses_needed_turn ≤ s1.pulse_count ∧
        ∃ k, k < scenario_left_blocked.irq_turn.length ∧
          s1.pulse_count =
            (deliver { paused (sensed (loop_entry []) scenario_left_blocked) scenario_left_blocked
                with pulse_count := 0 }
              (scenario_left_blocked.irq_turn.take (k + 1)).flatten).pulse_count) ∧
    (main_loop 281 { loop_entry [] with pulse_count := 200 } [scenario_left_blocked]).state.pulse_count
      = 31 :=
  ⟨turn_discards_progress 281 (loop_entry []) 200 scenario_left_blocked []
    (by norm_num [scenario_left_blocked]) (by norm_num [scenario_left_blocked, blocked]),
   by decide!⟩

/-! ## Floating point rounding error -/

theorem log2Aux_spec (fuel n : Nat) (hfuel : n ≤ fuel) (hn : 1 ≤ n) :
    2 ^ log2Aux fuel n ≤ n ∧ n < 2 ^ (log2Aux fuel n + 1) := by
  induction fuel generalizing n with
  | zero => omega
  | succ fuel ih =>
    simp only [log2Aux]
    by_cases h2 : 2 ≤ n
    · rw [if_pos h2]
      obtain ⟨h3, h4⟩ := ih (n / 2) (by omega) (by omega)
      rw [pow_succ] at h4 ⊢
      rw [pow_succ]
      constructor <;> omega
    · rw [if_neg h2]
      simp
      omega

theorem ilog2_spec (n : Nat) (hn : 1 ≤ n) : 2 ^ ilog2 n ≤ n ∧ n < 2 ^ (ilog2 n + 1) :=
  log2Aux_spec n n le_rfl hn

/-- The binary exponent is a lower bound: `2 ^ binExp n d ≤ n / d`. -/
theorem binExp_le (n d : Nat) (hn : 1 ≤ n) (hd : 1 ≤ d) :
    (2 : ℚ) ^ binExp n d ≤ (n : ℚ) / d := by
  have hdq : (0 : ℚ) < d := by exact_mod_cast hd
  obtain ⟨hn1, -⟩ := ilog2_spec n hn
  obtain ⟨-, hd2⟩ := ilog2_spec d hd
  have hn1q : (2 : ℚ) ^ (ilog2 n : ℤ) ≤ n := by
    rw [zpow_natCast]; exact_mod_cast hn1
  have hd2q : (d : ℚ) ≤ (2 : ℚ) ^ ((ilog2 d : ℤ) + 1) := by
    rw [show ((ilog2 d : ℤ) + 1) = ((ilog2 d + 1 : ℕ) : ℤ) by push_cast; ring, zpow_natCast]
    exact_mod_cast hd2.le
  -- the exponent one below the difference of the logarithms always works
  have hlow : (2 : ℚ) ^ ((ilog2 n : ℤ) - (ilog2 d : ℤ) - 1) ≤ (n : ℚ) / d := by
    have h2 : (0 : ℚ) < (2 : ℚ) ^ ((ilog2 d : ℤ) + 1) := by positivity
    rw [show (ilog2 n : ℤ) - (ilog2 d : ℤ) - 1 = (ilog2 n : ℤ) - ((ilog2 d : ℤ) + 1) by ring,
      zpow_sub₀ (by norm_num : (2 : ℚ) ≠ 0)]
    calc (2 : ℚ) ^ (ilog2 n : ℤ) / (2 : ℚ) ^ ((ilog2 d : ℤ) + 1)
        ≤ (n : ℚ) / (2 : ℚ) ^ ((ilog2 d : ℤ) + 1) := by
          exact div_le_div_of_nonneg_right hn1q h2.le
      _ ≤ (n : ℚ) / d := by
          exact div_le_div_of_nonneg_left (by positivity) hdq hd2q
  simp only [binExp]
  by_cases hk : (0 : ℤ) ≤ (ilog2 n : ℤ) - (ilog2 d : ℤ)
  · rw [if_pos hk]
    by_cases hc : d * 2 ^ ((ilog2 n : ℤ) - (ilog2 d : ℤ)).toNat ≤ n
    · rw [if_pos hc]
      have : (2 : ℚ) ^ ((ilog2 n : ℤ) - (ilog2 d : ℤ))
          = ((2 ^ ((ilog2 n : ℤ) - (ilog2 d : ℤ)).toNat : ℕ) : ℚ) := by
        conv_lhs => rw [← Int.toNat_of_nonneg hk]
        rw [zpow_natCast]; push_cast; rfl
      rw [this, le_div_iff₀ hdq]
      have hc' : ((d * 2 ^ ((ilog2 n : ℤ) - (ilog2 d : ℤ)).toNat : ℕ) : ℚ) ≤ n := by
        exact_mod_cast hc
      push_cast at hc' ⊢
      linarith
    · rw [if_neg hc]; exact hlow
  · rw [if_neg hk]
    by_cases hc : d ≤ n * 2 ^ (-((ilog2 n : ℤ) - (ilog2 d : ℤ))).toNat
    · rw [if_pos hc]
      have hneg : (0 : ℤ) ≤ -((ilog2 n : ℤ) - (ilog2 d : ℤ)) := by omega
      have : (2 : ℚ) ^ ((ilog2 n : ℤ) - (ilog2 d : ℤ))
          = 1 / ((2 ^ (-((ilog2 n : ℤ) - (ilog2 d : ℤ))).toNat : ℕ) : ℚ) := by
        conv_lhs => rw [← neg_neg ((ilog2 n : ℤ) - (ilog2 d : ℤ)), zpow_neg,
          ← Int.toNat_of_nonneg hneg]
        rw [zpow_natCast]; push_cast; simp
      rw [this, le_div_iff₀ hdq, div_mul_eq_mul_div, one_mul, div_le_iff₀ (by positivity)]
      have hc' : ((d : ℕ) : ℚ) ≤ ((n * 2 ^ (-((ilog2 n : ℤ) - (ilog2 d : ℤ))).toNat : ℕ) : ℚ) := by
        exact_mod_cast hc
      push_cast at hc' ⊢
      linarith
    · rw [if_neg hc]; exact hlow

/-- Rounding a fraction to the nearest integer moves it by at most one half. -/
theorem roundHalfEven_error (a b : Nat) (hb : 1 ≤ b) :
    |((roundHalfEven a b : ℕ) : ℚ) - (a : ℚ) / b| ≤ 1 / 2 := by
  have hbq : (0 : ℚ) < b := by exact_mod_cast hb
  have hdm : (a : ℚ) = b * ((a / b : ℕ) : ℚ) + ((a % b : ℕ) : ℚ) := by
    exact_mod_cast (Nat.div_add_mod a b).symm
  have hr : ((a % b : ℕ) : ℚ) < b := by exact_mod_cast Nat.mod_lt a hb
  have hr0 : (0 : ℚ) ≤ ((a % b : ℕ) : ℚ) := by positivity
  have hquot : (a : ℚ) / b = ((a / b : ℕ) : ℚ) + ((a % b : ℕ) : ℚ) / b := by
    rw [div_eq_iff hbq.ne', add_mul, div_mul_cancel₀ _ hbq.ne']
    linarith
  rw [hquot, abs_le]
  simp only [roundHalfEven]
  by_cases h1 : 2 * (a % b) < b
  · rw [if_pos h1]
    have h1q : 2 * ((a % b : ℕ) : ℚ) < b := by exact_mod_cast h1
    have : ((a % b : ℕ) : ℚ) / b < 1 / 2 := by
      rw [div_lt_iff₀ hbq]; linarith
    have : (0 : ℚ) ≤ ((a % b : ℕ) : ℚ) / b := by positivity
    constructor <;> linarith
  · rw [if_neg h1]
    have h1q : (b : ℚ) ≤ 2 * ((a % b : ℕ) : ℚ) := by exact_mod_cast Nat.not_lt.mp h1
    have hge : 1 / 2 ≤ ((a % b : ℕ) : ℚ) / b := by
      rw [le_div_iff₀ hbq]; linarith
    have hlt : ((a % b : ℕ) : ℚ) / b < 1 := by
      rw [div_lt_iff₀ hbq]; linarith
    by_cases h2 : b < 2 * (a % b)
    · rw [if_pos h2]
      push_cast
      constructor <;> linarith
    · rw [if_neg h2]
      have h2q : 2 * ((a % b : ℕ) : ℚ) ≤ b := by exact_mod_cast Nat.not_lt.mp h2
      have heq : ((a % b : ℕ) : ℚ) / b = 1 / 2 := by
        rw [div_eq_iff hbq.ne']; linarith
      by_cases h3 : a / b % 2 = 0
      · rw [if_pos h3]
        constructor <;> linarith
      · rw [if_neg h3]
        push_cast
        constructor <;> linarith

/-- Rounding a positive rational to a `p`-bit significand has relative error at most
`2 ^ (-p)`. -/
theorem roundBin_error (p : Nat) (hp : 1 ≤ p) (x : ℚ) (hx : 0 < x) :
    |roundBin p x - x| ≤ x / 2 ^ p := by
  have hnum : 0 < x.num := Rat.num_pos.mpr hx
  have hn : 1 ≤ x.num.natAbs := by omega
  have hd : 1 ≤ x.den := x.den_pos
  have hxe : (x.num.natAbs : ℚ) / x.den = x := by
    have h1 : ((x.num.natAbs : ℕ) : ℤ) = x.num := Int.natAbs_of_nonneg hnum.le
    have h2 : ((x.num.natAbs : ℕ) : ℚ) = (((x.num.natAbs : ℕ) : ℤ) : ℚ) :=
      (Int.cast_natCast _).symm
    rw [h2, h1]; exact Rat.num_div_den x
  have hexp := binExp_le x.num.natAbs x.den hn hd
  rw [hxe] at hexp
  simp only [roundBin]
  rw [if_neg hx.ne', if_neg (not_lt.mpr hx.le)]
  generalize hsh : binExp x.num.natAbs x.den - ((p : ℤ) - 1) = sh
  -- the unit in the last place is at most `x / 2 ^ (p - 1)`
  have hulp : (2 : ℚ) ^ sh ≤ x / 2 ^ (p - 1) := by
    rw [← hsh, zpow_sub₀ (by norm_num : (2 : ℚ) ≠ 0)]
    have : (2 : ℚ) ^ ((p : ℤ) - 1) = 2 ^ (p - 1) := by
      rw [show ((p : ℤ) - 1) = ((p - 1 : ℕ) : ℤ) by omega, zpow_natCast]
    rw [this]
    exact div_le_div_of_nonneg_right hexp (by positivity)
  have hpow : (2 : ℚ) ^ p = 2 * 2 ^ (p - 1) := by
    conv_lhs => rw [show p = (p - 1) + 1 by omega]
    rw [pow_succ]; ring
  have hgoal : ∀ v : ℚ, |v - x| ≤ (2 : ℚ) ^ sh / 2 → |v - x| ≤ x / 2 ^ p := by
    intro v hv
    refine hv.trans ?_
    rw [hpow, div_le_div_iff₀ (by norm_num) (by positivity)]
    have h3 : (2 : ℚ) ^ sh * 2 ^ (p - 1) ≤ x := by
      rwa [le_div_iff₀ (by positivity)] at hulp
    nlinarith
  apply hgoal
  by_cases hs : 0 ≤ sh
  · rw [if_pos hs]
    have h2sh : (2 : ℚ) ^ sh = ((2 ^ sh.toNat : ℕ) : ℚ) := by
      conv_lhs => rw [← Int.toNat_of_nonneg hs]
      rw [zpow_natCast]; push_cast; rfl
    have hbpos : 1 ≤ x.den * 2 ^ sh.toNat := Nat.one_le_iff_ne_zero.mpr (by positivity)
    have herr := roundHalfEven_error x.num.natAbs (x.den * 2 ^ sh.toNat) hbpos
    have hpos : (0 : ℚ) < ((2 ^ sh.toNat : ℕ) : ℚ) := by positivity
    have hscale : (x.num.natAbs : ℚ) / ((x.den * 2 ^ sh.toNat : ℕ) : ℚ)
        = x / ((2 ^ sh.toNat : ℕ) : ℚ) := by
      conv_rhs => rw [← hxe]
      push_cast; field_simp
    rw [hscale] at herr
    rw [h2sh]
    push_cast at herr ⊢
    have hp2 : (0 : ℚ) < 2 ^ sh.toNat := by positivity
    rw [abs_le] at herr ⊢
    obtain ⟨e1, e2⟩ := herr
    have e3 : x / 2 ^ sh.toNat * 2 ^ sh.toNat = x := by field_simp
    constructor
    · nlinarith
    · nlinarith
  · rw [if_neg hs]
    have hneg : 0 ≤ -sh := by omega
    have h2sh : (2 : ℚ) ^ sh = 1 / ((2 ^ (-sh).toNat : ℕ) : ℚ) := by
      conv_lhs => rw [← neg_neg sh, zpow_neg, ← Int.toNat_of_nonneg hneg]
      rw [zpow_natCast]; push_cast; simp
    have herr := roundHalfEven_error (x.num.natAbs * 2 ^ (-sh).toNat) x.den hd
    have hscale : ((x.num.natAbs * 2 ^ (-sh).toNat : ℕ) : ℚ) / (x.den : ℚ)
        = x * ((2 ^ (-sh).toNat : ℕ) : ℚ) := by
      conv_rhs => rw [← hxe]
      push_cast; field_simp
    rw [hscale] at herr
    rw [h2sh]
    push_cast at herr ⊢
    have hp2 : (0 : ℚ) < 2 ^ (-sh).toNat := by positivity
    rw [abs_le] at herr ⊢
    obtain ⟨e1, e2⟩ := herr
    constructor
    · rw [le_sub_iff_add_le, ← sub_eq_neg_add, le_div_iff₀ hp2]
      have : (x - 1 / 2 ^ (-sh).toNat / 2) * 2 ^ (-sh).toNat = x * 2 ^ (-sh).toNat - 1 / 2 := by
        field_simp; ring
      linarith
    · rw [sub_le_iff_le_add, div_le_iff₀ hp2]
      have : (1 / 2 ^ (-sh).toNat / 2 + x) * 2 ^ (-sh).toNat = x * 2 ^ (-sh).toNat + 1 / 2 := by
        field_simp; ring
      linarith


theorem roundBin_zero (p : Nat) : roundBin p 0 = 0 := by
  simp [roundBin]

/-- Rounding widens a relative enclosure by the factor `1 ± 2 ^ (-p)`. -/
theorem enclosed_round (p : Nat) (hp : 1 ≤ p) (X lo hi y : ℚ) (hX : 0 < X) (hlo : 0 < lo)
    (h : enclosed X lo hi y) :
    enclosed X (lo * (1 - 1 / 2 ^ p)) (hi * (1 + 1 / 2 ^ p)) (roundBin p y) := by
  obtain ⟨h1, h2⟩ := h
  have hy : 0 < y := lt_of_lt_of_le (mul_pos hX hlo) h1
  have herr := roundBin_error p hp y hy
  rw [abs_le] at herr
  obtain ⟨e1, e2⟩ := herr
  have hpow : (2 : ℚ) ≤ 2 ^ p := by
    calc (2 : ℚ) = 2 ^ 1 := by norm_num
      _ ≤ 2 ^ p := pow_le_pow_right₀ (by norm_num) hp
  have hδ : (0 : ℚ) ≤ 1 - 1 / 2 ^ p := by
    rw [sub_nonneg, div_le_iff₀ (by positivity)]; linarith
  have hδ2 : (0 : ℚ) ≤ 1 + 1 / 2 ^ p := by positivity
  have hyd : y / 2 ^ p = y * (1 / 2 ^ p) := by ring
  constructor
  · calc X * (lo * (1 - 1 / 2 ^ p)) = (X * lo) * (1 - 1 / 2 ^ p) := by ring
      _ ≤ y * (1 - 1 / 2 ^ p) := mul_le_mul_of_nonneg_right h1 hδ
      _ ≤ roundBin p y := by rw [hyd] at e1; linarith
  · calc roundBin p y ≤ y * (1 + 1 / 2 ^ p) := by rw [hyd] at e2; linarith
      _ ≤ (X * hi) * (1 + 1 / 2 ^ p) := mul_le_mul_of_nonneg_right h2 hδ2
      _ = X * (hi * (1 + 1 / 2 ^ p)) := by ring

theorem enclosed_mul (X Y lo hi lo2 hi2 a b : ℚ) (hX : 0 < X) (hY : 0 < Y) (hlo : 0 < lo)
    (hlo2 : 0 < lo2) (ha : enclosed X lo hi a) (hb : enclosed Y lo2 hi2 b) :
    enclosed (X * Y) (lo * lo2) (hi * hi2) (a * b) := by
  obtain ⟨a1, a2⟩ := ha
  obtain ⟨b1, b2⟩ := hb
  have ha0 : 0 ≤ a := le_trans (mul_pos hX hlo).le a1
  have hb0 : 0 ≤ Y * lo2 := (mul_pos hY hlo2).le
  constructor
  · calc X * Y * (lo * lo2) = (X * lo) * (Y * lo2) := by ring
      _ ≤ a * (Y * lo2) := mul_le_mul_of_nonneg_right a1 hb0
      _ ≤ a * b := mul_le_mul_of_nonneg_left b1 ha0
  · calc a * b ≤ a * (Y * hi2) := mul_le_mul_of_nonneg_left b2 ha0
      _ ≤ (X * hi) * (Y * hi2) :=
          mul_le_mul_of_nonneg_right a2 (le_trans hb0 (le_trans b1 b2))
      _ = X * Y * (hi * hi2) := by ring

/-- The returned distance is within a relative `2 ^ (-23)` of `d * 0.0343 / 2`. -/
theorem distance_of_tolerance (d : Nat) :
    |distance_of d - (d : ℚ) * (343 / 10000) / 2| ≤ (d : ℚ) * (343 / 10000) / 2 / 2 ^ 23 := by
  rcases Nat.eq_zero_or_pos d with h0 | hpos
  · subst h0
    simp [distance_of, f32, f64, roundBin_zero]
  · have hd : (0 : ℚ) < d := by exact_mod_cast hpos
    have hc : (0 : ℚ) < 343 / 10000 := by norm_num
    have e0 : enclosed (d : ℚ) 1 1 (d : ℚ) := ⟨by simp, by simp⟩
    have e1 := enclosed_round 53 (by norm_num) _ _ _ _ hd (by norm_num) e0
    have c0 : enclosed (343 / 10000 : ℚ) 1 1 (343 / 10000) := ⟨by simp, by simp⟩
    have c1 := enclosed_round 53 (by norm_num) _ _ _ _ hc (by norm_num) c0
    have m := enclosed_mul _ _ _ _ _ _ _ _ hd hc (by norm_num) (by norm_num) e1 c1
    have m1 := enclosed_round 53 (by norm_num) _ _ _ _ (mul_pos hd hc) (by norm_num) m
    have hhalf : enclosed ((d : ℚ) * (343 / 10000) / 2)
        (1 * (1 - 1 / 2 ^ 53) * (1 * (1 - 1 / 2 ^ 53)) * (1 - 1 / 2 ^ 53))
        (1 * (1 + 1 / 2 ^ 53) * (1 * (1 + 1 / 2 ^ 53)) * (1 + 1 / 2 ^ 53))
        (roundBin 53 (roundBin 53 (d : ℚ) * roundBin 53 (343 / 10000)) / 2) := by
      obtain ⟨h1, h2⟩ := m1
      constructor
      · rw [div_mul_eq_mul_div]; exact div_le_div_of_nonneg_right h1 (by norm_num)
      · rw [div_mul_eq_mul_div]; exact div_le_div_of_nonneg_right h2 (by norm_num)
    have q := enclosed_round 53 (by norm_num) _ _ _ _ (by positivity) (by norm_num) hhalf
    have r := enclosed_round 24 (by norm_num) _ _ _ _ (by positivity) (by norm_num) q
    obtain ⟨r1, r2⟩ := r
    have hX : (0 : ℚ) < (d : ℚ) * (343 / 10000) / 2 := by positivity
    have lo : (1 : ℚ) - 1 / 2 ^ 23 ≤
        1 * (1 - 1 / 2 ^ 53) * (1 * (1 - 1 / 2 ^ 53)) * (1 - 1 / 2 ^ 53) * (1 - 1 / 2 ^ 53) *
          (1 - 1 / 2 ^ 24) := by norm_num
    have hi : (1 : ℚ) * (1 + 1 / 2 ^ 53) * (1 * (1 + 1 / 2 ^ 53)) * (1 + 1 / 2 ^ 53) *
        (1 + 1 / 2 ^ 53) * (1 + 1 / 2 ^ 24) ≤ 1 + 1 / 2 ^ 23 := by norm_num
    have r1' := le_trans (mul_le_mul_of_nonneg_left lo hX.le) r1
    have r2' := le_trans r2 (mul_le_mul_of_nonneg_left hi hX.le)
    simp only [distance_of, f32, f64]
    rw [abs_le]
    constructor <;> linarith

/-! ## C4 : the range measurement -/

theorem poll_while_edge (lvl : Bool) (t0 : Nat) (pre : List Poll) (p : Poll) (rest : List Poll)
    (hpre : ∀ q ∈ pre, q.level = lvl ∧ sub32 (time_us_32 q.time) t0 ≤ timeout_us)
    (hp : p.level ≠ lvl) :
    poll_while lvl t0 (pre ++ p :: rest) = .edge (time_us_32 p.time) rest := by
  induction pre with
  | nil => simp [poll_while, hp]
  | cons q pre ih =>
    obtain ⟨h1, h2⟩ := hpre q (by simp)
    simp only [List.cons_append, poll_while]
    rw [if_pos h1, if_neg (by omega)]
    exact ih (fun x hx => hpre x (by simp [hx]))

theorem poll_while_timeout (lvl : Bool) (t0 : Nat) (pre : List Poll) (p : Poll)
    (rest : List Poll)
    (hpre : ∀ q ∈ pre, q.level = lvl ∧ sub32 (time_us_32 q.time) t0 ≤ timeout_us)
    (hp : p.level = lvl) (ht : timeout_us < sub32 (time_us_32 p.time) t0) :
    poll_while lvl t0 (pre ++ p :: rest) = .timed_out := by
  induction pre with
  | nil => simp [poll_while, hp, ht]
  | cons q pre ih =>
    obtain ⟨h1, h2⟩ := hpre q (by simp)
    simp only [List.cons_append, poll_while]
    rw [if_pos h1, if_neg (by omega)]
    exact ih (fun x hx => hpre x (by simp [hx]))

/-- C4 (as the code measures): let the echo line be polled low, within the timeout of
the start, until a poll finds it high at timer value `t_rise`, and then polled high
until a poll finds it low at timer value `t_fall`.  With `d = t_fall - t_rise`:
if `d` is at most 40000 us (and the timer readings in between lie between the two
timestamps) the result is the single precision value of `(d * 0.0343) / 2.0`;
more generally that value is returned whenever every poll before the falling edge was
within the timeout, whether or not `d` itself exceeds 40000; it is within a relative
`2 ^ (-23)` of `d * 0.0343 / 2`.  If instead a poll finds the line still high more than
40000 us after `t_rise`, or still low more than 40000 us after the start, the result
is -1. -/
theorem measure_distance_result (start t_rise : Nat) (lows highs rest : List Poll)
    (hlows : ∀ q ∈ lows,
      q.level = false ∧ sub32 (time_us_32 q.time) (time_us_32 start) ≤ timeout_us)
    (hlevel : ∀ q ∈ highs, q.level = true) :
    (∀ t_fall, t_rise ≤ t_fall → t_fall - t_rise ≤ timeout_us →
      (∀ q ∈ highs, t_rise ≤ q.time ∧ q.time ≤ t_fall) →
      measure_distance ⟨start, lows ++ ⟨true, t_rise⟩ :: (highs ++ ⟨false, t_fall⟩ :: rest)⟩
        = some (distance_of (t_fall - t_rise))) ∧
    (∀ t_fall,
      (∀ q ∈ highs, sub32 (time_us_32 q.time) (time_us_32 t_rise) ≤ timeout_us) →
      measure_distance ⟨start, lows ++ ⟨true, t_rise⟩ :: (highs ++ ⟨false, t_fall⟩ :: rest)⟩
        = some (distance_of (sub32 (time_us_32 t_fall) (time_us_32 t_rise)))) ∧
    (∀ d : Nat,
      |distance_of d - (d : ℚ) * (343 / 10000) / 2| ≤ (d : ℚ) * (343 / 10000) / 2 / 2 ^ 23) ∧
    (∀ t, (∀ q ∈ highs, sub32 (time_us_32 q.time) (time_us_32 t_rise) ≤ timeout_us) →
      timeout_us < sub32 (time_us_32 t) (time_us_32 t_rise) →
      measure_distance ⟨start, lows ++ ⟨true, t_rise⟩ :: (highs ++ ⟨true, t⟩ :: rest)⟩
        = some (-1)) ∧
    (∀ t, timeout_us < sub32 (time_us_32 t) (time_us_32 start) →
      measure_distance ⟨start, lows ++ ⟨false, t⟩ :: rest⟩ = some (-1)) := by
  have hfall : ∀ t_fall,
      (∀ q ∈ highs, sub32 (time_us_32 q.time) (time_us_32 t_rise) ≤ timeout_us) →
      measure_distance ⟨start, lows ++ ⟨true, t_rise⟩ :: (highs ++ ⟨false, t_fall⟩ :: rest)⟩
        = some (distance_of (sub32 (time_us_32 t_fall) (time_us_32 t_rise))) := by
    intro t_fall hwithin
    simp only [measure_distance]
    rw [poll_while_edge false _ lows ⟨true, t_rise⟩ _ hlows (by simp)]
    simp only
    rw [poll_while_edge true _ highs ⟨false, t_fall⟩ _
      (fun q hq => ⟨hlevel q hq, hwithin q hq⟩) (by simp)]
  refine ⟨fun t_fall hord hd hbetween => ?_, hfall, distance_of_tolerance,
    fun t hwithin ht => ?_, fun t ht => ?_⟩
  · have hto : timeout_us = 40000 := rfl
    rw [hfall t_fall (fun q hq => ?_), sub32_of_le _ _ hord (by omega)]
    obtain ⟨h1, h2⟩ := hbetween q hq
    rw [sub32_of_le _ _ h1 (by omega)]
    omega
  · simp only [measure_distance]
    rw [poll_while_edge false _ lows ⟨true, t_rise⟩ _ hlows (by simp)]
    simp only
    rw [poll_while_timeout true _ highs ⟨true, t⟩ _
      (fun q hq => ⟨hlevel q hq, hwithin q hq⟩) rfl ht]
  · simp only [measure_distance]
    rw [poll_while_timeout false _ lows ⟨false, t⟩ _ hlows rfl ht]

/-- Witness of the corrected C4: the echo rises 500 us after the trigger and falls
1458 us later (about 25 cm); or stays high beyond the timeout; or never rises. -/
theorem measure_distance_result_witness :
    measure_distance ⟨0, [⟨false, 50⟩] ++ ⟨true, 500⟩ :: ([⟨true, 1000⟩] ++ ⟨false, 1958⟩ :: [])⟩
      = some (distance_of (1958 - 500)) ∧
    measure_distance ⟨0, [⟨false, 50⟩] ++ ⟨true, 500⟩ :: ([⟨true, 1000⟩] ++ ⟨true, 40501⟩ :: [])⟩
      = some (-1) ∧
    measure_distance ⟨0, [⟨false, 50⟩] ++ ⟨false, 40001⟩ :: []⟩ = some (-1) :=
  ⟨(measure_distance_result 0 500 [⟨false, 50⟩] [⟨true, 1000⟩] [] (by decide) (by decide)).1
      1958 (by decide) (by decide) (by decide),
   (measure_distance_result 0 500 [⟨false, 50⟩] [⟨true, 1000⟩] [] (by decide) (by decide)).2.2.2.1
      40501 (by decide) (by decide),
   (measure_distance_result 0 500 [⟨false, 50⟩] [⟨true, 1000⟩] [] (by decide) (by decide)).2.2.2.2
      40001 (by decide)⟩

/-- C4 as stated fails: the echo is found high at 500 us, still high at 40500 us
(exactly the timeout, which does not trip the strict test), and low at the next poll,
whose timestamp is 40501 us.  The measured duration 40001 us exceeds the timeout and
the function returns a distance of about 686 cm, not the Timeout sentinel. -/
theorem measured_duration_above_timeout :
    measure_distance ⟨0, [⟨false, 50⟩, ⟨true, 500⟩, ⟨true, 40500⟩, ⟨false, 40501⟩]⟩
      = some (distance_of 40001) ∧
    timeout_us < 40001 ∧ distance_of 40001 ≠ -1 ∧ 686 < distance_of 40001 := by
  decide!

/-! ## Readings produced by `measure_distance` -/

/-- In terms of the measured echo duration, a reading reports an obstacle exactly for
durations from 1 us to 1749 us. -/
theorem blocked_distance_of_iff (d : Nat) : blocked (distance_of d) ↔ 1 ≤ d ∧ d ≤ 1749 := by
  have htol := distance_of_tolerance d
  rw [abs_le] at htol
  obtain ⟨h1, h2⟩ := htol
  constructor
  · rintro ⟨hpos, hle⟩
    constructor
    · by_contra h0
      have hd0 : d = 0 := by omega
      subst hd0
      simp [distance_of, f32, f64, roundBin_zero] at hpos
    · by_contra hgt
      have hd : (1750 : ℚ) ≤ d := by exact_mod_cast (by omega : 1750 ≤ d)
      norm_num at h1 h2
      linarith
  · rintro ⟨hlo, hhi⟩
    have hd1 : (1 : ℚ) ≤ d := by exact_mod_cast hlo
    have hd2 : (d : ℚ) ≤ 1749 := by exact_mod_cast hhi
    norm_num at h1 h2
    constructor <;> linarith

/-- A front measurement that times out waiting for the echo yields an iteration whose
front reading is clear. -/
theorem measured_front_timeout (start t : Nat) (lows rest : List Poll) (left right : EchoTrace)
    (irq_sense irq_pause : List Irq) (irq_turn : List (List Irq)) (irq_tail : List Irq)
    (hlows : ∀ q ∈ lows,
      q.level = false ∧ sub32 (time_us_32 q.time) (time_us_32 start) ≤ timeout_us)
    (ht : timeout_us < sub32 (time_us_32 t) (time_us_32 start)) (c : Cycle)
    (h : Cycle.measured ⟨start, lows ++ ⟨false, t⟩ :: rest⟩ left right
      irq_sense irq_pause irq_turn irq_tail = some c) :
    clear_front c := by
  have hm : measure_distance ⟨start, lows ++ ⟨false, t⟩ :: rest⟩ = some (-1) := by
    simp only [measure_distance]
    rw [poll_while_timeout false _ lows ⟨false, t⟩ _ hlows rfl ht]
  simp only [Cycle.measured, hm] at h
  cases hl : measure_distance left with
  | none => simp [hl] at h
  | some l =>
    cases hr : measure_distance right with
    | none => simp [hl, hr] at h
    | some r =>
      simp only [hl, hr, Option.some.injEq] at h
      subst h
      exact Or.inl rfl

end Carrito
